import Mathlib

/-!
Verification of the playerdb worker against its specification.

The development shallowly embeds the TypeScript sources:

* `src/libs/http.ts` — the hand-written HTTP/1.1 response codec
  (`decodeChunked`, `parseResponse`);
* `src/libs/hytale-token-manager.ts` — the Hytale session-pool manager
  (`reportRateLimit`, `getNextSession`, `ensureMinPool`,
  `getSessionTokenForContainer`);
* `src/libs/hytale.ts`, `src/libs/steam.ts`, the Xbox module and the
  Minecraft module — the per-platform lookup pipelines.

JavaScript strings are modelled as `List Char` (unicode scalars); the
JS-specific behaviours that the sources rely on (`String.prototype.slice`
with negative indices, `parseInt` with radix 16, truthiness of `""`/`0`,
object-spread override) are modelled explicitly.  Upstream HTTP calls,
the KV cache and `Date.now()` are passed in as explicit oracle values, so
every pipeline is a pure function of its inputs.
-/

namespace PlayerDB

/-- JS strings, modelled as lists of unicode scalar characters. -/
abbrev Str := List Char

/-- Shorthand for embedding a Lean string literal. -/
def strLit (s : String) : Str := s.toList

/-! ### JS string primitives -/

/-- Does `pat` occur at the very start of `s`? -/
def strStartsWith : Str → Str → Bool
  | _, [] => true
  | [], _ :: _ => false
  | c :: cs, d :: ds => c = d && strStartsWith cs ds

/-- First index `≥ 0` at which `pat` occurs in `s` (JS `indexOf`, hit = some). -/
def findPatAux (pat : Str) : Str → Nat → Option Nat
  | s, i =>
    if strStartsWith s pat then some i
    else
      match s with
      | [] => none
      | _ :: rest => findPatAux pat rest (i + 1)

def findPat (pat s : Str) : Option Nat := findPatAux pat s 0

/-- JS `s.indexOf(pat, from)` with a non-negative `from` (negative `from`
is clamped to `0` by the caller, matching JS). -/
def indexOfFrom (s pat : Str) (start : Nat) : Option Nat :=
  (findPat pat (s.drop start)).map (· + start)

/-- Index clamping of JS `String.prototype.slice`: negative indices count
from the end, everything is clamped into `[0, length]`. -/
def jsClamp (n idx : Int) : Int :=
  if idx < 0 then max (n + idx) 0 else min idx n

/-- JS `String.prototype.slice(start, stop)`; an inverted range yields
the empty string. -/
def jsSlice (s : Str) (start stop : Int) : Str :=
  if jsClamp (s.length : Int) start < jsClamp (s.length : Int) stop then
    (s.drop (jsClamp (s.length : Int) start).toNat).take
      (jsClamp (s.length : Int) stop - jsClamp (s.length : Int) start).toNat
  else []

/-- JS `String.prototype.split(sep)` for a non-empty separator, written
with explicit fuel (`s.length + 1` steps always suffice because every
step discards at least the separator). -/
def splitStrFuel (sep : Str) : Nat → Str → List Str
  | 0, s => [s]
  | fuel + 1, s =>
    match findPat sep s with
    | none => [s]
    | some i => s.take i :: splitStrFuel sep fuel (s.drop (i + sep.length))

def splitStr (sep s : Str) : List Str := splitStrFuel sep (s.length + 1) s

def isDigitChar (c : Char) : Bool := '0' ≤ c && c ≤ '9'

def digitVal (c : Char) : Nat := c.toNat - '0'.toNat

/-- Characters treated as whitespace by JS `trim`/`trimStart` (the ASCII
ones; the sources only ever trim ASCII header text). -/
def isJsWhitespace (c : Char) : Bool :=
  c = ' ' || c = '\t' || c = '\n' || c = '\r' ||
    c = Char.ofNat 0x0b || c = Char.ofNat 0x0c || c = Char.ofNat 0xa0 ||
    c = Char.ofNat 0xfeff

def jsTrimStart (s : Str) : Str := s.dropWhile isJsWhitespace

def jsTrimEnd (s : Str) : Str := (s.reverse.dropWhile isJsWhitespace).reverse

def jsTrim (s : Str) : Str := jsTrimEnd (jsTrimStart s)

/-- ASCII lower-casing of a character (`String.prototype.toLowerCase`
restricted to the ASCII range actually exercised by the sources). -/
def asciiLower (c : Char) : Char :=
  if 'A' ≤ c && c ≤ 'Z' then Char.ofNat (c.toNat + 32) else c

def lowerStr (s : Str) : Str := s.map asciiLower

def isHexDigitChar (c : Char) : Bool :=
  isDigitChar c || ('a' ≤ c && c ≤ 'f') || ('A' ≤ c && c ≤ 'F')

def hexDigitVal (c : Char) : Nat :=
  if isDigitChar c then c.toNat - '0'.toNat
  else if 'a' ≤ c && c ≤ 'f' then c.toNat - 'a'.toNat + 10
  else c.toNat - 'A'.toNat + 10

def hexToNat (s : Str) : Nat := s.foldl (fun acc c => acc * 16 + hexDigitVal c) 0

def decToNat (s : Str) : Nat := s.foldl (fun acc c => acc * 10 + digitVal c) 0

/-- JS `Number.parseInt(s, 16)` on a pre-trimmed string: optional sign,
optional `0x`/`0X`, then the longest run of hex digits; `none` is `NaN`. -/
def parseIntHex (s : Str) : Option Int :=
  let signed : Int × Str :=
    match s with
    | '-' :: rest => (-1, rest)
    | '+' :: rest => (1, rest)
    | _ => (1, s)
  let body :=
    if strStartsWith signed.2 (strLit "0x") || strStartsWith signed.2 (strLit "0X") then
      signed.2.drop 2
    else signed.2
  let ds := body.takeWhile isHexDigitChar
  if ds = [] then none else some (signed.1 * (hexToNat ds : Int))

/-- UTF-8 byte size of one unicode scalar (what `TextEncoder` produces). -/
def utf8CharLen (c : Char) : Nat :=
  if c.toNat < 0x80 then 1
  else if c.toNat < 0x800 then 2
  else if c.toNat < 0x10000 then 3
  else 4

/-- `new TextEncoder().encode(s).length`. -/
def utf8Len (s : Str) : Nat := (s.map utf8CharLen).sum

/-- JS object assignment `o[k] = v` on an association list: overwrite the
existing entry in place or append a fresh one. -/
def objSetStr (o : List (Str × Str)) (k v : Str) : List (Str × Str) :=
  match o with
  | [] => [(k, v)]
  | (k0, v0) :: rest => if k0 = k then (k, v) :: rest else (k0, v0) :: objSetStr rest k v

def lookupStr (o : List (Str × Str)) (k : Str) : Option Str :=
  (o.find? (fun p => p.1 = k)).map (·.2)

/-! ### `src/libs/http.ts` -/

namespace Http

inductive ParseErr
  | noHeaderTerminator
  | invalidStatusLine
  | headerNoColon
  | chunkMissingSizeCRLF
  | chunkInvalidSize
  | chunkBeyond
  | chunkMissingFinal
  | badContentLength
  | contentLengthMismatch
  | noBodyLength
deriving DecidableEq

def crlf : Str := strLit "\r\n"

/-- `sizeLine.split(';')[0]`. -/
def splitSemiHead (s : Str) : Str :=
  match findPat (strLit ";") s with
  | none => s
  | some i => s.take i

/-- One-loop body of `decodeChunked`, with the `position` cursor kept as
a JS number (an `Int`: the source lets it go negative) and explicit fuel.
`none` means the fuel ran out, i.e. the TypeScript `while` loop has not
terminated within that many iterations. -/
def chunkLoop (data : Str) : Nat → Int → List Str → Option (Except ParseErr Str)
  | 0, _, _ => none
  | fuel + 1, pos, acc =>
    if pos < (data.length : Int) then
      match indexOfFrom data crlf pos.toNat with
      | none => some (.error .chunkMissingSizeCRLF)
      | some sizeEnd =>
        let sizeHex := jsTrim (splitSemiHead (jsSlice data pos (sizeEnd : Int)))
        match parseIntHex sizeHex with
        | none => some (.error .chunkInvalidSize)
        | some chunkSize =>
          if chunkSize = 0 then some (.ok acc.flatten)
          else
            let chunkStart : Int := (sizeEnd : Int) + 2
            let chunkEnd : Int := chunkStart + chunkSize
            if chunkEnd > (data.length : Int) then some (.error .chunkBeyond)
            else chunkLoop data fuel (chunkEnd + 2) (acc ++ [jsSlice data chunkStart chunkEnd])
    else some (.error .chunkMissingFinal)

/-- `decodeChunked`, run for `fuel` loop iterations. -/
def decodeChunkedFuel (fuel : Nat) (data : Str) : Option (Except ParseErr Str) :=
  chunkLoop data fuel 0 []

def teKey : Str := strLit "transfer-encoding"
def clKey : Str := strLit "content-length"

structure HttpResponse where
  statusCode : Nat
  statusMessage : Str
  headers : List (Str × Str)
  bodyData : Str
deriving DecidableEq

/-- The status-line regex `^HTTP\/1\.[01] (\d{3}) (.*)$` (where `.` does
not match a line terminator). -/
def matchStatusLine : Str → Option (Nat × Str)
  | 'H' :: 'T' :: 'T' :: 'P' :: '/' :: '1' :: '.' :: v :: ' ' :: d1 :: d2 :: d3 :: ' ' :: rest =>
    if (v = '0' || v = '1') && isDigitChar d1 && isDigitChar d2 && isDigitChar d3 &&
        rest.all (fun c => c ≠ '\r' && c ≠ '\n' && c ≠ Char.ofNat 0x2028 && c ≠ Char.ofNat 0x2029) then
      some (digitVal d1 * 100 + digitVal d2 * 10 + digitVal d3, rest)
    else none
  | _ => none

/-- The header loop: split each line at its first `:`, lower-case the key,
trim leading whitespace off the value; a line with no `:` throws. -/
def parseHeaderLines : List Str → List (Str × Str) → Except ParseErr (List (Str × Str))
  | [], acc => .ok acc
  | line :: rest, acc =>
    match findPat (strLit ":") line with
    | none => .error .headerNoColon
    | some i =>
      parseHeaderLines rest (objSetStr acc (lowerStr (line.take i)) (jsTrimStart (line.drop (i + 1))))

/-- `parseResponse` from `src/libs/http.ts`.  The outer `Option` is `none`
only when the chunked decoder's loop does not terminate. -/
def parseResponse (d : Str) : Option (Except ParseErr HttpResponse) :=
  match findPat (strLit "\r\n\r\n") d with
  | none => some (.error .noHeaderTerminator)
  | some i =>
    let rawBody := d.drop (i + 4)
    let headLines := splitStr crlf (d.take i)
    match matchStatusLine (headLines.headD []) with
    | none => some (.error .invalidStatusLine)
    | some sm =>
      match parseHeaderLines (headLines.drop 1) [] with
      | .error e => some (.error e)
      | .ok headers =>
        if (lookupStr headers teKey).map lowerStr = some (strLit "chunked") then
          match decodeChunkedFuel (d.length + 1) rawBody with
          | none => none
          | some (.error e) => some (.error e)
          | some (.ok b) => some (.ok ⟨sm.1, sm.2, headers, b⟩)
        else
          match lookupStr headers clKey with
          | some cl =>
            if cl = [] then some (.error .noBodyLength)
            else if cl.all isDigitChar then
              if decToNat cl = utf8Len rawBody then some (.ok ⟨sm.1, sm.2, headers, rawBody⟩)
              else some (.error .contentLengthMismatch)
            else some (.error .badContentLength)
          | none => some (.error .noBodyLength)

/-! #### Theorems about the HTTP codec -/

/-- C1: for every response buffer whose head is well-formed (the split on
the first CRLFCRLF exists, the status line matches the source's regex,
every header line contains a colon), whose parsed headers carry no
`transfer-encoding: chunked`, and whose `content-length` value is a
non-empty digit string equal to the UTF-8 byte length of the raw body
after the first CRLFCRLF, `parseResponse` succeeds and returns `bodyData`
equal to that raw body. -/
theorem parseResponse_content_length_roundtrip
    (d : Str) (i code : Nat) (msg : Str) (hs : List (Str × Str))
    (hfind : findPat (strLit "\r\n\r\n") d = some i)
    (hstat : matchStatusLine ((splitStr crlf (d.take i)).headD []) = some (code, msg))
    (hhdrs : parseHeaderLines ((splitStr crlf (d.take i)).drop 1) [] = .ok hs)
    (hte : (lookupStr hs teKey).map lowerStr ≠ some (strLit "chunked"))
    (hcl : ∃ cl, lookupStr hs clKey = some cl ∧ cl ≠ [] ∧ cl.all isDigitChar = true ∧
      decToNat cl = utf8Len (d.drop (i + 4))) :
    parseResponse d = some (.ok ⟨code, msg, hs, d.drop (i + 4)⟩) := by
  obtain ⟨cl, hcl1, hcl2, hcl3, hcl4⟩ := hcl
  simp only [parseResponse, hfind, hstat, hhdrs, hcl1, if_neg hte, if_neg hcl2, hcl3,
    if_pos hcl4, if_true]

/-- Witness for C1 at a concrete buffer. -/
theorem parseResponse_content_length_roundtrip_witness :
    parseResponse (strLit "HTTP/1.1 200 OK\r\ncontent-length: 2\r\n\r\nhi") =
      some (.ok ⟨200, strLit "OK", [(strLit "content-length", strLit "2")], strLit "hi"⟩) :=
  parseResponse_content_length_roundtrip _ 34 200 (strLit "OK")
    [(strLit "content-length", strLit "2")] rfl rfl rfl (by decide)
    ⟨strLit "2", rfl, by decide, rfl, rfl⟩

/-- The `decodeChunked` loop body maps position `0` of the buffer
`"-6\r\n"` straight back to position `0`: `parseInt("-6", 16)` is `-6`
(not `NaN`), the size-`0` and overflow checks both pass, the pushed slice
is empty, and `position` becomes `chunkEnd + 2 = 0` again. -/
theorem chunkLoop_minusSix (fuel : Nat) :
    ∀ acc, Http.chunkLoop (strLit "-6\r\n") fuel 0 acc = none := by
  induction fuel with
  | zero => intro _; rfl
  | succ n ih =>
    intro acc
    have h : Http.chunkLoop (strLit "-6\r\n") (n + 1) 0 acc =
        Http.chunkLoop (strLit "-6\r\n") n 0 (acc ++ [[]]) := rfl
    rw [h]
    exact ih _

/-- C2 (code bug): on the buffer `"-6\r\n"` — which has no zero-size
terminator chunk and whose size token is not a hex numeral, so the claim
requires `decodeChunked` to fail — the TypeScript loop never terminates:
for every iteration budget the embedded loop is still running. -/
theorem decodeChunked_diverges_on_negative_size (fuel : Nat) :
    Http.decodeChunkedFuel fuel (strLit "-6\r\n") = none :=
  chunkLoop_minusSix fuel []

end Http

/-! ### `src/libs/hytale-token-manager.ts`

The Durable Object's methods are embedded as pure functions over the
`StoredTokens` record.  `Date.now()` becomes an explicit `now : Nat`
(epoch milliseconds) and the upstream session-refresh / session-creation
calls become oracle functions from the attempt number to an optional raw
session (`none` = the upstream call failed). -/

namespace TokenManager

def fiveMinutes : Nat := 5 * 60 * 1000

def sessionRateLimitCooldown : Nat := 60 * 1000

def dayMs : Nat := 24 * 60 * 60 * 1000

structure SessionInfo where
  sessionToken : String
  identityToken : String
  expiresAt : Nat
  rateLimitedUntil : Option Nat := none
deriving DecidableEq

structure StoredTokens where
  refreshToken : Option String := none
  refreshTokenRotatedAt : Option Nat := none
  accessToken : Option String := none
  accessTokenExpiresAt : Option Nat := none
  profileUuid : Option String := none
  sessionToken : Option String := none
  identityToken : Option String := none
  identityTokenExpiresAt : Option Nat := none
  sessions : Option (List SessionInfo) := none
  nextSessionIndex : Option Nat := none
  lastRateLimitSeen : Option Nat := none
deriving DecidableEq

/-- What the upstream returns from `game-session/refresh` or
`game-session/new`: both tokens, plus an optional expiry (already
converted from the ISO date string to epoch milliseconds). -/
structure RawSession where
  sessionToken : String
  identityToken : String
  expiresAt : Option Nat := none
deriving DecidableEq

def isSessionInfoValid (now : Nat) (s : SessionInfo) : Bool :=
  decide (now + fiveMinutes < s.expiresAt)

/-- `isSessionAvailable`: valid, and not blocked by a rate-limit stamp in
the future (`session.rateLimitedUntil && session.rateLimitedUntil > now`). -/
def isSessionAvailable (now : Nat) (s : SessionInfo) : Bool :=
  isSessionInfoValid now s &&
    match s.rateLimitedUntil with
    | none => true
    | some u => decide (u ≤ now)

/-- `parseSessionExpiry`: the upstream expiry if present, else 24 hours. -/
def parseSessionExpiry (now : Nat) (e : Option Nat) : Nat := e.getD (now + dayMs)

/-- The record built by `createSessionInfo` / the refresh loop: note that
`rateLimitedUntil` is always absent on a fresh record. -/
def mkSessionInfo (now : Nat) (raw : RawSession) : SessionInfo :=
  ⟨raw.sessionToken, raw.identityToken, parseSessionExpiry now raw.expiresAt, none⟩

/-- JS `Number.parseInt(s, 10)` on the env string. -/
def parseIntDec (s : Str) : Option Int :=
  let signed : Int × Str :=
    match s with
    | '-' :: rest => (-1, rest)
    | '+' :: rest => (1, rest)
    | _ => (1, s)
  let ds := signed.2.takeWhile isDigitChar
  if ds = [] then none else some (signed.1 * (decToNat ds : Int))

/-- `parsePoolSize`: fall back to the default on a missing/empty env
value, a `NaN` parse, or a value below 1. -/
def parsePoolSize (envValue : Option Str) (defaultValue : Nat) : Nat :=
  match envValue with
  | none => defaultValue
  | some s =>
    if s = [] then defaultValue
    else
      match parseIntDec (jsTrimStart s) with
      | none => defaultValue
      | some v => if v < 1 then defaultValue else v.toNat

inductive MgrErr
  | noSessions
  | rateLimited
  | sessionCreationFailed
deriving DecidableEq

/-- The scan inside `getNextSession`: probe `remaining` slots starting at
offset `i` from `startIndex`, modulo the pool size. -/
def scanFrom (now : Nat) (pool : List SessionInfo) (startIndex : Nat) :
    Nat → Nat → Option (SessionInfo × Nat)
  | _, 0 => none
  | i, remaining + 1 =>
    let idx := (startIndex + i) % pool.length
    match pool.get? idx with
    | none => scanFrom now pool startIndex (i + 1) remaining
    | some sess =>
      if isSessionAvailable now sess then some (sess, idx)
      else scanFrom now pool startIndex (i + 1) remaining

/-- The `if (!tokens.sessions) tokens.sessions = []` initialisation at
the top of `expandPool`. -/
def poolInit (s : StoredTokens) : StoredTokens :=
  if s.sessions = none then { s with sessions := some [] } else s

/-- `expandPool`: append one freshly created session unless the pool is
already at `maxSize` or the creation oracle fails. -/
def expandPool (maxSize : Nat) (createO : Option RawSession) (s : StoredTokens) (now : Nat) :
    Option SessionInfo × StoredTokens :=
  if maxSize ≤ ((poolInit s).sessions.getD []).length then (none, poolInit s)
  else
    match createO with
    | some raw =>
      (some (mkSessionInfo now raw),
        { poolInit s with
          sessions := some ((poolInit s).sessions.getD [] ++ [mkSessionInfo now raw]) })
    | none => (none, poolInit s)

/-- `getNextSession`: round-robin scan from the cursor for the first
available session (advancing the cursor past it); if none is available,
try to expand the pool; otherwise fail rate-limited. -/
def getNextSession (maxSize : Nat) (createO : Option RawSession) (s : StoredTokens) (now : Nat) :
    Except MgrErr (SessionInfo × StoredTokens) :=
  match s.sessions with
  | none => .error .noSessions
  | some pool =>
    if pool.length = 0 then .error .noSessions
    else
      match scanFrom now pool (s.nextSessionIndex.getD 0) 0 pool.length with
      | some (sess, idx) =>
        .ok (sess, { s with nextSessionIndex := some ((idx + 1) % pool.length) })
      | none =>
        match expandPool maxSize createO s now with
        | (some newSess, s3) => .ok (newSess, s3)
        | (none, _) => .error .rateLimited

/-- Stamp the first pool entry carrying `tok` (the `Array.prototype.find`
in `reportRateLimit`). -/
def stampFirst (tok : String) (v : Nat) : List SessionInfo → List SessionInfo
  | [] => []
  | sess :: rest =>
    if sess.sessionToken = tok then { sess with rateLimitedUntil := some v } :: rest
    else sess :: stampFirst tok v rest

/-- `reportRateLimit`: stamp the matching session for 60 s, record
`lastRateLimitSeen = now`, then preemptively expand the pool. -/
def reportRateLimit (maxSize : Nat) (createO : Option RawSession) (s : StoredTokens)
    (tok : String) (now : Nat) : StoredTokens :=
  let s1 :=
    match s.sessions with
    | none => s
    | some pool =>
      { s with
          sessions := some (stampFirst tok (now + sessionRateLimitCooldown) pool)
          lastRateLimitSeen := some now }
  (expandPool maxSize createO s1 now).2

/-- Stable insertion by a numeric key (ascending), used to model the
stable `Array.prototype.sort` on the already-filtered copy. -/
def insertByKey (key : SessionInfo → Nat) (x : SessionInfo) :
    List SessionInfo → List SessionInfo
  | [] => [x]
  | y :: ys => if key y ≤ key x then y :: insertByKey key x ys else x :: y :: ys

def sortByKey (key : SessionInfo → Nat) (l : List SessionInfo) : List SessionInfo :=
  l.foldl (fun acc x => insertByKey key x acc) []

/-- `getSessionTokenForContainer`: prefer a valid session that is not
rate-limited; otherwise the valid session with the oldest rate-limit
stamp.  The sort operates on the filtered copy, and the method never
writes, so the stored state is returned unchanged. -/
def getSessionTokenForContainer (s : StoredTokens) (now : Nat) :
    Except MgrErr String × StoredTokens :=
  match s.sessions with
  | none => (.error .noSessions, s)
  | some pool =>
    if pool.length = 0 then (.error .noSessions, s)
    else
      let validSessions := pool.filter (isSessionInfoValid now)
      if validSessions.length = 0 then (.error .noSessions, s)
      else
        let notRateLimited := validSessions.filter fun sess =>
          match sess.rateLimitedUntil with
          | none => true
          | some u => decide (u ≤ now)
        match notRateLimited with
        | sess :: _ => (.ok sess.sessionToken, s)
        | [] =>
          match sortByKey (fun sess => sess.rateLimitedUntil.getD 0) validSessions with
          | sess :: _ => (.ok sess.sessionToken, s)
          | [] => (.error .noSessions, s)

/-- `migrateToPoolFormat` (guarded by JS truthiness of all three legacy
fields). -/
def migrateToPoolFormat (s : StoredTokens) : StoredTokens :=
  match s.sessionToken, s.identityToken, s.identityTokenExpiresAt with
  | some st, some it, some exp =>
    if st ≠ "" ∧ it ≠ "" ∧ exp ≠ 0 then
      { s with
          sessions := some [⟨st, it, exp, none⟩]
          nextSessionIndex := some 0
          sessionToken := none
          identityToken := none
          identityTokenExpiresAt := none }
    else s
  | _, _, _ => s

/-- The refresh stage of `ensureMinPool`: walk the expired sessions in
order, stopping once the valid pool reaches `minSize` (the remaining
expired sessions are dropped); each attempted refresh consumes the next
oracle slot, successes are appended to the valid pool. -/
def refreshLoop (minSize : Nat) (refreshO : Nat → Option RawSession) (now : Nat) :
    List SessionInfo → List SessionInfo → Nat → List SessionInfo
  | [], acc, _ => acc
  | _ :: rest, acc, k =>
    if minSize ≤ acc.length then acc
    else
      match refreshO k with
      | some raw => refreshLoop minSize refreshO now rest (acc ++ [mkSessionInfo now raw]) (k + 1)
      | none => refreshLoop minSize refreshO now rest acc (k + 1)

/-- The creation stage of `ensureMinPool`: up to `remaining` creations;
the first failure records `lastError` and breaks.  Returns the created
sessions, their count, and whether an error was recorded. -/
def createLoop (createO : Nat → Option RawSession) (now : Nat) :
    Nat → Nat → List SessionInfo × Nat × Bool
  | 0, _ => ([], 0, false)
  | remaining + 1, k =>
    match createO k with
    | some raw =>
      let r := createLoop createO now remaining (k + 1)
      (mkSessionInfo now raw :: r.1, r.2.1 + 1, r.2.2)
    | none => ([], 0, true)

/-- The legacy-migration step at the top of `ensureMinPool` (guarded by
JS truthiness of `tokens.sessionToken` and absence of `tokens.sessions`). -/
def migStep (s : StoredTokens) : StoredTokens :=
  if ((match s.sessionToken with | some st => decide (st ≠ "") | none => false) &&
      s.sessions.isNone : Bool)
  then migrateToPoolFormat s else s

/-- The `if (!tokens.sessions) { sessions = []; nextSessionIndex = 0 }`
initialisation inside `ensureMinPool`. -/
def ensureInit (s : StoredTokens) : StoredTokens :=
  if s.sessions = none then { s with sessions := some [], nextSessionIndex := some 0 } else s

/-- The pool after the refresh stage: the valid sessions (in order)
followed by whichever expired sessions could be refreshed before the
minimum was reached. -/
def refreshedPool (minSize : Nat) (refreshO : Nat → Option RawSession) (now : Nat)
    (pool : List SessionInfo) : List SessionInfo :=
  refreshLoop minSize refreshO now (pool.filter fun sess => ¬ isSessionInfoValid now sess)
    (pool.filter (isSessionInfoValid now)) 0

/-- The tail of `ensureMinPool` after the creation stage: write the new
pool, clamp the cursor with `Math.min(old, length − 1)` (zero on an empty
pool), and flag the `hytale.session_creation_failed` throw exactly when
nothing was created, the pool is empty and an error was recorded. -/
def finishCreate (sB : StoredTokens) (afterRefresh : List SessionInfo)
    (created : List SessionInfo × Nat × Bool) : StoredTokens × Bool :=
  ({ sB with
      sessions := some (afterRefresh ++ created.1)
      nextSessionIndex := some (if 0 < (afterRefresh ++ created.1).length then
        min (sB.nextSessionIndex.getD 0) ((afterRefresh ++ created.1).length - 1) else 0) },
    decide (created.2.1 = 0) && decide ((afterRefresh ++ created.1).length = 0) && created.2.2)

/-- The critical-section of `ensureMinPool` (refresh stage, then creation
stage if still short). -/
def refillPath (minSize : Nat) (refreshO createO : Nat → Option RawSession)
    (sB : StoredTokens) (now : Nat) : StoredTokens × Bool :=
  if minSize ≤ (refreshedPool minSize refreshO now (sB.sessions.getD [])).length then
    ({ sB with
        sessions := some (refreshedPool minSize refreshO now (sB.sessions.getD []))
        nextSessionIndex := some (min (sB.nextSessionIndex.getD 0)
          ((refreshedPool minSize refreshO now (sB.sessions.getD [])).length - 1)) },
      false)
  else
    finishCreate sB (refreshedPool minSize refreshO now (sB.sessions.getD []))
      (createLoop createO now
        (minSize - (refreshedPool minSize refreshO now (sB.sessions.getD [])).length) 0)

/-- `ensureMinPool`.  The returned `Bool` is `true` when the source
throws `hytale.session_creation_failed` (state changes are persisted
before the throw, so the updated record is returned either way). -/
def ensureMinPool (minSize : Nat) (refreshO createO : Nat → Option RawSession)
    (s : StoredTokens) (now : Nat) : StoredTokens × Bool :=
  if minSize ≤
      (((ensureInit (migStep s)).sessions.getD []).filter (isSessionInfoValid now)).length then
    (ensureInit (migStep s), false)
  else
    refillPath minSize refreshO createO (ensureInit (migStep s)) now

/-- `getSessionToken`: ensure the minimum pool, then round-robin. -/
def getSessionToken (minSize maxSize : Nat) (refreshO createO : Nat → Option RawSession)
    (expandO : Option RawSession) (s : StoredTokens) (now : Nat) :
    Except MgrErr (SessionInfo × StoredTokens) :=
  let r := ensureMinPool minSize refreshO createO s now
  if r.2 then .error .sessionCreationFailed else getNextSession maxSize expandO r.1 now

/-- One worker request's interaction with the pool: a timestamp plus the
upstream oracles for that request. -/
structure SelectCall where
  time : Nat
  refreshO : Nat → Option RawSession
  createO : Nat → Option RawSession
  expandO : Option RawSession

/-- Iterated `getSessionToken` calls; the sessions handed out are
collected, and on an error the state still carries the (persisted)
`ensureMinPool` updates. -/
def selectRun (minSize maxSize : Nat) : List SelectCall → StoredTokens → List SessionInfo
  | [], _ => []
  | c :: rest, s =>
    match getSessionToken minSize maxSize c.refreshO c.createO c.expandO s c.time with
    | .ok r => r.1 :: selectRun minSize maxSize rest r.2
    | .error _ =>
      selectRun minSize maxSize rest (ensureMinPool minSize c.refreshO c.createO s c.time).1

/-! #### Theorems about the token manager -/

theorem scanFrom_available (now : Nat) (pool : List SessionInfo) (startIndex : Nat) :
    ∀ rem i sess idx, scanFrom now pool startIndex i rem = some (sess, idx) →
      isSessionAvailable now sess = true := by
  intro rem
  induction rem with
  | zero =>
    intro i sess idx h
    exact absurd h (by simp [scanFrom])
  | succ n ih =>
    intro i sess idx h
    rw [scanFrom] at h
    split at h
    · exact ih _ _ _ h
    · split at h
      · simp only [Option.some.injEq, Prod.mk.injEq] at h
        obtain ⟨rfl, rfl⟩ := h
        assumption
      · exact ih _ _ _ h

theorem poolInit_lastRateLimitSeen (s : StoredTokens) :
    (poolInit s).lastRateLimitSeen = s.lastRateLimitSeen := by
  rw [poolInit]; split <;> rfl

theorem poolInit_of_some (s : StoredTokens) (pool : List SessionInfo)
    (h : s.sessions = some pool) : poolInit s = s := by
  rw [poolInit, if_neg (by simp [h])]

/-- A session handed out by a successful `expandPool` is freshly built,
so it carries no rate-limit stamp. -/
theorem expandPool_fresh (maxSize : Nat) (o : Option RawSession) (s : StoredTokens) (now : Nat)
    (newSess : SessionInfo) (s3 : StoredTokens)
    (h : expandPool maxSize o s now = (some newSess, s3)) :
    newSess.rateLimitedUntil = none := by
  rw [expandPool.eq_def] at h
  split at h
  · exact absurd h (by simp)
  · rcases o with _ | raw
    · exact absurd h (by simp)
    · simp only [Prod.mk.injEq, Option.some.injEq] at h
      obtain ⟨h1, -⟩ := h
      rw [← h1]
      rfl

/-- `expandPool` never touches `lastRateLimitSeen` and only ever appends
to an existing pool. -/
theorem expandPool_state (maxSize : Nat) (o : Option RawSession) (s : StoredTokens) (now : Nat) :
    (expandPool maxSize o s now).2.lastRateLimitSeen = s.lastRateLimitSeen ∧
    ∀ pool, s.sessions = some pool →
      ∃ tail, (expandPool maxSize o s now).2.sessions = some (pool ++ tail) := by
  constructor
  · rw [expandPool.eq_def]
    split
    · exact poolInit_lastRateLimitSeen s
    · rcases o with _ | raw
      · exact poolInit_lastRateLimitSeen s
      · simpa using poolInit_lastRateLimitSeen s
  · intro pool hpool
    rw [expandPool.eq_def, poolInit_of_some s pool hpool]
    split
    · exact ⟨[], by simpa using hpool⟩
    · rcases o with _ | raw
      · exact ⟨[], by simpa using hpool⟩
      · exact ⟨[mkSessionInfo now raw], by simp [hpool]⟩

/-- Any session handed out by `getNextSession` is either un-stamped or
carries a stamp that has already elapsed. -/
theorem getNextSession_stamp_elapsed (maxSize : Nat) (o : Option RawSession)
    (s : StoredTokens) (now : Nat) (sess : SessionInfo) (s2 : StoredTokens)
    (h : getNextSession maxSize o s now = .ok (sess, s2)) :
    sess.rateLimitedUntil = none ∨ ∃ u, sess.rateLimitedUntil = some u ∧ u ≤ now := by
  rw [getNextSession] at h
  split at h
  · exact absurd h (by simp)
  · split at h
    · exact absurd h (by simp)
    · split at h
      · rename_i sess0 idx hscan
        have hav := scanFrom_available now _ _ _ _ _ _ hscan
        simp only [Except.ok.injEq, Prod.mk.injEq] at h
        obtain ⟨rfl, -⟩ := h
        rw [isSessionAvailable, Bool.and_eq_true] at hav
        rcases hsr : sess0.rateLimitedUntil with _ | u
        · exact Or.inl rfl
        · right
          refine ⟨u, rfl, ?_⟩
          have h2 := hav.2
          rw [hsr] at h2
          exact of_decide_eq_true h2
      · split at h
        · rename_i newSess s3 hnew
          simp only [Except.ok.injEq, Prod.mk.injEq] at h
          obtain ⟨rfl, -⟩ := h
          exact Or.inl (expandPool_fresh _ _ _ _ _ _ hnew)
        · exact absurd h (by simp)

/-- Same property for the composite `getSessionToken`. -/
theorem getSessionToken_stamp_elapsed (minSize maxSize : Nat)
    (refreshO createO : Nat → Option RawSession) (expandO : Option RawSession)
    (s : StoredTokens) (now : Nat) (sess : SessionInfo) (s2 : StoredTokens)
    (h : getSessionToken minSize maxSize refreshO createO expandO s now = .ok (sess, s2)) :
    sess.rateLimitedUntil = none ∨ ∃ u, sess.rateLimitedUntil = some u ∧ u ≤ now := by
  rw [getSessionToken] at h
  split at h
  · exact absurd h (by simp)
  · exact getNextSession_stamp_elapsed _ _ _ _ _ _ h

/-- No `getSessionToken` call made strictly before time `bound` can hand
out a session stamped `rateLimitedUntil = bound`. -/
theorem selectRun_avoids_stamp (minSize maxSize bound : Nat) :
    ∀ (calls : List SelectCall) (s : StoredTokens),
      (∀ c ∈ calls, c.time < bound) →
      ∀ sess ∈ selectRun minSize maxSize calls s, sess.rateLimitedUntil ≠ some bound := by
  intro calls
  induction calls with
  | nil =>
    intro s _ sess hmem
    simp [selectRun] at hmem
  | cons c rest ih =>
    intro s htimes sess hmem
    rw [selectRun] at hmem
    split at hmem
    · rename_i r hok
      rw [List.mem_cons] at hmem
      rcases hmem with rfl | hmem
      · rcases getSessionToken_stamp_elapsed _ _ _ _ _ _ _ _ _ hok with hnone | ⟨u, hu, hle⟩
        · simp [hnone]
        · rw [hu]
          intro hcontra
          have hub : u = bound := by injection hcontra
          have hct : c.time < bound := htimes c (List.mem_cons_self c rest)
          omega
      · exact ih _ (fun d hd => htimes d (List.mem_cons_of_mem c hd)) sess hmem
    · exact ih _ (fun d hd => htimes d (List.mem_cons_of_mem c hd)) sess hmem

/-- `stampFirst` stamps a matching entry. -/
theorem stampFirst_mem (tok : String) (v : Nat) :
    ∀ pool : List SessionInfo, (∃ sess ∈ pool, sess.sessionToken = tok) →
      ∃ sess ∈ stampFirst tok v pool, sess.sessionToken = tok ∧ sess.rateLimitedUntil = some v := by
  intro pool
  induction pool with
  | nil => rintro ⟨sess, hmem, -⟩; cases hmem
  | cons hd rest ih =>
    rintro ⟨sess, hmem, htok⟩
    rw [stampFirst]
    by_cases hhd : hd.sessionToken = tok
    · rw [if_pos hhd]
      exact ⟨{ hd with rateLimitedUntil := some v }, List.mem_cons_self _ _, hhd, rfl⟩
    · rw [if_neg hhd]
      rw [List.mem_cons] at hmem
      rcases hmem with rfl | hmem
      · exact absurd htok hhd
      · obtain ⟨sess2, hmem2, h2⟩ := ih ⟨sess, hmem, htok⟩
        exact ⟨sess2, List.mem_cons_of_mem _ hmem2, h2⟩

/-- C3: after `reportRateLimit(token)` for a session token present in the
pool, the stamped session's `rateLimitedUntil` equals `now + 60 s` (the
60000 ms cooldown) and `lastRateLimitSeen` equals `now`; and every
round-robin selection (`getSessionToken`, which runs `ensureMinPool` and
then `getNextSession`) performed strictly before `now + 60 s` hands out a
session whose stamp is not `now + 60 s` — in particular never the
stamped session. -/
theorem reportRateLimit_blocks_session (minSize maxSize : Nat) (o : Option RawSession)
    (s : StoredTokens) (tok : String) (now : Nat)
    (hpool : ∃ pool, s.sessions = some pool ∧ ∃ sess ∈ pool, sess.sessionToken = tok) :
    (reportRateLimit maxSize o s tok now).lastRateLimitSeen = some now ∧
    (∃ pool1, (reportRateLimit maxSize o s tok now).sessions = some pool1 ∧
      ∃ sess ∈ pool1, sess.sessionToken = tok ∧
        sess.rateLimitedUntil = some (now + sessionRateLimitCooldown)) ∧
    ∀ (calls : List SelectCall),
      (∀ c ∈ calls, c.time < now + sessionRateLimitCooldown) →
      ∀ sess ∈ selectRun minSize maxSize calls (reportRateLimit maxSize o s tok now),
        sess.rateLimitedUntil ≠ some (now + sessionRateLimitCooldown) := by
  obtain ⟨pool, hpl, hmem⟩ := hpool
  have hrep : reportRateLimit maxSize o s tok now =
      (expandPool maxSize o
        { s with
          sessions := some (stampFirst tok (now + sessionRateLimitCooldown) pool)
          lastRateLimitSeen := some now } now).2 := by
    rw [reportRateLimit, hpl]
  have hst := expandPool_state maxSize o
    { s with
      sessions := some (stampFirst tok (now + sessionRateLimitCooldown) pool)
      lastRateLimitSeen := some now } now
  refine ⟨?_, ?_, ?_⟩
  · rw [hrep, hst.1]
  · obtain ⟨tail, htail⟩ := hst.2 (stampFirst tok (now + sessionRateLimitCooldown) pool) rfl
    obtain ⟨sess, hm, hp⟩ := stampFirst_mem tok (now + sessionRateLimitCooldown) pool hmem
    exact ⟨stampFirst tok (now + sessionRateLimitCooldown) pool ++ tail, hrep ▸ htail,
      sess, List.mem_append_left _ hm, hp⟩
  · intro calls htimes sess hm
    exact selectRun_avoids_stamp minSize maxSize _ calls _ htimes sess hm

/-- Witness for C3 at a concrete pool. -/
theorem reportRateLimit_blocks_session_witness :
    (reportRateLimit 10 none
      { sessions := some [{ sessionToken := "a", identityToken := "i", expiresAt := 1000000000 }] }
      "a" 1000).lastRateLimitSeen = some 1000 ∧
    (∃ pool1, (reportRateLimit 10 none
      { sessions := some [{ sessionToken := "a", identityToken := "i", expiresAt := 1000000000 }] }
      "a" 1000).sessions = some pool1 ∧
      ∃ sess ∈ pool1, sess.sessionToken = "a" ∧
        sess.rateLimitedUntil = some (1000 + sessionRateLimitCooldown)) ∧
    ∀ (calls : List SelectCall),
      (∀ c ∈ calls, c.time < 1000 + sessionRateLimitCooldown) →
      ∀ sess ∈ selectRun 1 10 calls (reportRateLimit 10 none
        { sessions := some [{ sessionToken := "a", identityToken := "i", expiresAt := 1000000000 }] }
        "a" 1000),
        sess.rateLimitedUntil ≠ some (1000 + sessionRateLimitCooldown) :=
  reportRateLimit_blocks_session 1 10 none _ "a" 1000
    ⟨[{ sessionToken := "a", identityToken := "i", expiresAt := 1000000000 }], rfl,
      { sessionToken := "a", identityToken := "i", expiresAt := 1000000000 },
      List.mem_cons_self _ _, rfl⟩

theorem insertByKey_length (key : SessionInfo → Nat) (x : SessionInfo) :
    ∀ l, (insertByKey key x l).length = l.length + 1 := by
  intro l
  induction l with
  | nil => rfl
  | cons y ys ih =>
    rw [insertByKey]
    split
    · simp [ih]
    · rfl

theorem insertByKey_mem (key : SessionInfo → Nat) (x y : SessionInfo) :
    ∀ l, y ∈ insertByKey key x l → y = x ∨ y ∈ l := by
  intro l
  induction l with
  | nil =>
    intro h
    rw [insertByKey] at h
    rcases List.mem_singleton.mp h with rfl
    exact Or.inl rfl
  | cons z zs ih =>
    intro h
    rw [insertByKey] at h
    split at h
    · rw [List.mem_cons] at h
      rcases h with rfl | h
      · exact Or.inr (List.mem_cons_self _ _)
      · rcases ih h with h1 | h1
        · exact Or.inl h1
        · exact Or.inr (List.mem_cons_of_mem _ h1)
    · rw [List.mem_cons] at h
      rcases h with rfl | h
      · exact Or.inl rfl
      · exact Or.inr h

theorem sortByKey_length (key : SessionInfo → Nat) (l : List SessionInfo) :
    (sortByKey key l).length = l.length := by
  have aux : ∀ (l acc : List SessionInfo),
      (List.foldl (fun acc x => insertByKey key x acc) acc l).length = acc.length + l.length := by
    intro l
    induction l with
    | nil => intro acc; simp
    | cons x xs ih =>
      intro acc
      rw [List.foldl_cons, ih, insertByKey_length, List.length_cons]
      omega
  simpa using aux l []

theorem sortByKey_mem (key : SessionInfo → Nat) (l : List SessionInfo) (y : SessionInfo)
    (h : y ∈ sortByKey key l) : y ∈ l := by
  have aux : ∀ (l acc : List SessionInfo),
      y ∈ List.foldl (fun acc x => insertByKey key x acc) acc l → y ∈ acc ∨ y ∈ l := by
    intro l
    induction l with
    | nil => intro acc h2; exact Or.inl h2
    | cons x xs ih =>
      intro acc h2
      rw [List.foldl_cons] at h2
      rcases ih _ h2 with h3 | h3
      · rcases insertByKey_mem key x y acc h3 with rfl | h4
        · exact Or.inr (List.mem_cons_self _ _)
        · exact Or.inl h4
      · exact Or.inr (List.mem_cons_of_mem _ h3)
  rcases aux l [] h with h2 | h2
  · cases h2
  · exact h2

/-- C9: `getSessionTokenForContainer` never mutates the stored token
state: the returned state is exactly the input state (pool, cursor,
stamps, and persisted record untouched), and the result is either the
token of some valid pool session or the `hytale.no_sessions` error —
the latter exactly when no pool session is valid. -/
theorem getSessionTokenForContainer_frame (s : StoredTokens) (now : Nat) :
    (getSessionTokenForContainer s now).2 = s ∧
    (∀ tok, (getSessionTokenForContainer s now).1 = .ok tok →
      ∃ pool sess, s.sessions = some pool ∧ sess ∈ pool ∧
        isSessionInfoValid now sess = true ∧ sess.sessionToken = tok) ∧
    ((getSessionTokenForContainer s now).1 = .error .noSessions ↔
      ∀ pool, s.sessions = some pool → ∀ sess ∈ pool, isSessionInfoValid now sess = false) := by
  rcases hs : s.sessions with _ | pool
  · have heval : getSessionTokenForContainer s now = (.error .noSessions, s) := by
      simp only [getSessionTokenForContainer, hs]
    rw [heval]
    refine ⟨rfl, ?_, ?_⟩
    · intro tok h
      exact absurd h (by simp)
    · constructor
      · intro _ pool2 hp2
        exact absurd hp2 (by simp)
      · intro _
        rfl
  · by_cases h0 : pool.length = 0
    · have heval : getSessionTokenForContainer s now = (.error .noSessions, s) := by
        simp only [getSessionTokenForContainer, hs]
        rw [if_pos h0]
      have hpe : pool = [] := List.length_eq_zero.mp h0
      subst hpe
      rw [heval]
      refine ⟨rfl, ?_, ?_⟩
      · intro tok h
        exact absurd h (by simp)
      · constructor
        · intro _ pool2 hp2 sess hmem
          cases Option.some.inj hp2
          cases hmem
        · intro _
          rfl
    · by_cases hv : (pool.filter (isSessionInfoValid now)).length = 0
      · have heval : getSessionTokenForContainer s now = (.error .noSessions, s) := by
          simp only [getSessionTokenForContainer, hs]
          rw [if_neg h0, if_pos hv]
        have hnil := List.length_eq_zero.mp hv
        rw [heval]
        refine ⟨rfl, ?_, ?_⟩
        · intro tok h
          exact absurd h (by simp)
        · constructor
          · intro _ pool2 hp2 sess hmem
            cases Option.some.inj hp2
            exact Bool.eq_false_iff.mpr (List.filter_eq_nil_iff.mp hnil sess hmem)
          · intro _
            rfl
      · rcases hnr : (pool.filter (isSessionInfoValid now)).filter (fun sess =>
            match sess.rateLimitedUntil with
            | none => true
            | some u => decide (u ≤ now)) with _ | ⟨sess, rest⟩
        · rcases hsort : sortByKey (fun sess => sess.rateLimitedUntil.getD 0)
              (pool.filter (isSessionInfoValid now)) with _ | ⟨sess2, rest2⟩
          · exfalso
            have hlen := sortByKey_length (fun sess => sess.rateLimitedUntil.getD 0)
              (pool.filter (isSessionInfoValid now))
            rw [hsort] at hlen
            exact hv hlen.symm
          · have heval : getSessionTokenForContainer s now = (.ok sess2.sessionToken, s) := by
              simp only [getSessionTokenForContainer, hs]
              rw [if_neg h0, if_neg hv, hnr, hsort]
            have hmemsort : sess2 ∈ sortByKey (fun sess => sess.rateLimitedUntil.getD 0)
                (pool.filter (isSessionInfoValid now)) := by
              rw [hsort]
              exact List.mem_cons_self _ _
            have hmemp := List.mem_filter.mp (sortByKey_mem _ _ _ hmemsort)
            rw [heval]
            refine ⟨rfl, ?_, ?_⟩
            · intro tok h
              have htok : sess2.sessionToken = tok := by simpa using h
              exact ⟨pool, sess2, rfl, hmemp.1, hmemp.2, htok⟩
            · constructor
              · intro h
                exact absurd h (by simp)
              · intro hall
                have hfalse := hall pool rfl sess2 hmemp.1
                exact absurd hfalse (by simp [hmemp.2])
        · have heval : getSessionTokenForContainer s now = (.ok sess.sessionToken, s) := by
            simp only [getSessionTokenForContainer, hs]
            rw [if_neg h0, if_neg hv, hnr]
          have hmemnr : sess ∈ (pool.filter (isSessionInfoValid now)).filter (fun sess =>
              match sess.rateLimitedUntil with
              | none => true
              | some u => decide (u ≤ now)) := by
            rw [hnr]
            exact List.mem_cons_self _ _
          have hmemp := List.mem_filter.mp (List.mem_filter.mp hmemnr).1
          rw [heval]
          refine ⟨rfl, ?_, ?_⟩
          · intro tok h
            have htok : sess.sessionToken = tok := by simpa using h
            exact ⟨pool, sess, rfl, hmemp.1, hmemp.2, htok⟩
          · constructor
            · intro h
              exact absurd h (by simp)
            · intro hall
              have hfalse := hall pool rfl sess hmemp.1
              exact absurd hfalse (by simp [hmemp.2])

theorem migStep_of_some (s : StoredTokens) (pool : List SessionInfo)
    (h : s.sessions = some pool) : migStep s = s := by
  rw [migStep, if_neg]
  simp [h]

theorem ensureInit_of_some (s : StoredTokens) (pool : List SessionInfo)
    (h : s.sessions = some pool) : ensureInit s = s := by
  rw [ensureInit, if_neg]
  simp [h]

/-- C4 (amended): when `ensureMinPool` finds at least `min_pool` valid
sessions it returns without touching the cursor (even if it is out of
range); when it takes the refill path, the final cursor is
`min(old, poolLen − 1)` (`0` on an empty pool) — a clamp, not a reset to
zero — and is therefore in range whenever the pool is non-empty; and it
throws only when the pool ends empty (so no session creation succeeded). -/
theorem ensureMinPool_cursor_clamp (minSize : Nat) (_hmin : 1 ≤ minSize)
    (refreshO createO : Nat → Option RawSession) (s : StoredTokens) (now : Nat) :
    (∀ pool, s.sessions = some pool →
      minSize ≤ (pool.filter (isSessionInfoValid now)).length →
      ensureMinPool minSize refreshO createO s now = (s, false)) ∧
    (∀ pool, s.sessions = some pool →
      (pool.filter (isSessionInfoValid now)).length < minSize →
      ∃ pool2,
        (ensureMinPool minSize refreshO createO s now).1.sessions = some pool2 ∧
        (ensureMinPool minSize refreshO createO s now).1.nextSessionIndex =
          some (if pool2.length = 0 then 0
            else min (s.nextSessionIndex.getD 0) (pool2.length - 1)) ∧
        (0 < pool2.length →
          ((ensureMinPool minSize refreshO createO s now).1.nextSessionIndex.getD 0)
            < pool2.length)) ∧
    ((ensureMinPool minSize refreshO createO s now).2 = true →
      (ensureMinPool minSize refreshO createO s now).1.sessions = some [] ∧
      (ensureMinPool minSize refreshO createO s now).1.nextSessionIndex = some 0) := by
  refine ⟨?_, ?_, ?_⟩
  · intro pool hp hge
    rw [ensureMinPool, migStep_of_some s pool hp, ensureInit_of_some s pool hp, hp]
    rw [if_pos (by simpa using hge)]
  · intro pool hp hlt
    rw [ensureMinPool, migStep_of_some s pool hp, ensureInit_of_some s pool hp, hp]
    rw [if_neg (by simpa using Nat.not_le.mpr hlt)]
    rw [refillPath, hp]
    simp only [Option.getD_some]
    by_cases hrl : minSize ≤ (refreshedPool minSize refreshO now pool).length
    · rw [if_pos hrl]
      have hlen1 : ¬ (refreshedPool minSize refreshO now pool).length = 0 := by
        omega
      refine ⟨refreshedPool minSize refreshO now pool, rfl, ?_, ?_⟩
      · rw [if_neg hlen1]
      · intro hpos
        have hmr := Nat.min_le_right (s.nextSessionIndex.getD 0)
          ((refreshedPool minSize refreshO now pool).length - 1)
        simp only [Option.getD_some]
        exact Nat.lt_of_le_of_lt hmr (by omega)
    · rw [if_neg hrl, finishCreate]
      refine ⟨refreshedPool minSize refreshO now pool ++
        (createLoop createO now
          (minSize - (refreshedPool minSize refreshO now pool).length) 0).1,
        rfl, ?_, ?_⟩
      · by_cases hz : (refreshedPool minSize refreshO now pool ++
            (createLoop createO now
              (minSize - (refreshedPool minSize refreshO now pool).length) 0).1).length = 0
        · rw [if_pos hz, if_neg (by omega)]
        · rw [if_neg hz, if_pos (by omega)]
      · intro hpos
        rw [if_pos hpos]
        have hmr := Nat.min_le_right (s.nextSessionIndex.getD 0)
          ((refreshedPool minSize refreshO now pool ++
            (createLoop createO now
              (minSize - (refreshedPool minSize refreshO now pool).length) 0).1).length - 1)
        simp only [Option.getD_some]
        exact Nat.lt_of_le_of_lt hmr (by omega)
  · intro hthrew
    rw [ensureMinPool] at hthrew ⊢
    split at hthrew
    · exact absurd hthrew (by simp)
    · rename_i hcond
      rw [if_neg hcond]
      rw [refillPath] at hthrew ⊢
      split at hthrew
      · exact absurd hthrew (by simp)
      · rename_i hcond2
        rw [if_neg hcond2]
        rw [finishCreate] at hthrew ⊢
        simp only [Bool.and_eq_true, decide_eq_true_eq] at hthrew
        obtain ⟨⟨-, hlen⟩, -⟩ := hthrew
        have hnil := List.length_eq_zero.mp hlen
        rw [hnil]
        exact ⟨rfl, by simp⟩

/-- The state for the C4 counterexample: one valid session, stale cursor 5. -/
def c4Pool : List SessionInfo :=
  [{ sessionToken := "a", identityToken := "i", expiresAt := 1000000000 }]

def c4State : StoredTokens := { sessions := some c4Pool, nextSessionIndex := some 5 }

/-- C4 counterexample: a pool that already has its one valid session but
a stale cursor of `5`.  `ensureMinPool` (with `min_pool = 1`) returns
with the cursor still `5` — out of range of the 1-element pool and not
reset to zero — because the early-return path never touches the cursor. -/
theorem ensureMinPool_no_reset_counterexample :
    (ensureMinPool 1 (fun _ => none) (fun _ => none) c4State 0).1.nextSessionIndex = some 5 ∧
    (ensureMinPool 1 (fun _ => none) (fun _ => none) c4State 0).1.sessions = some c4Pool ∧
    ¬ (5 < c4Pool.length) ∧ (5 : Nat) ≠ 0 := by
  refine ⟨rfl, rfl, by simp [c4Pool], by omega⟩

/-- The state for the C4 witness: an empty pool, stale cursor 7. -/
def c4wState : StoredTokens := { sessions := some [], nextSessionIndex := some 7 }

def c4wCreate : Nat → Option RawSession :=
  fun _ => some { sessionToken := "b", identityToken := "j" }

/-- Witness for C4 (amended) at a concrete refill run. -/
theorem ensureMinPool_cursor_clamp_witness :
    (∀ pool, c4wState.sessions = some pool →
      1 ≤ (pool.filter (isSessionInfoValid 0)).length →
      ensureMinPool 1 (fun _ => none) c4wCreate c4wState 0 = (c4wState, false)) ∧
    (∀ pool, c4wState.sessions = some pool →
      (pool.filter (isSessionInfoValid 0)).length < 1 →
      ∃ pool2,
        (ensureMinPool 1 (fun _ => none) c4wCreate c4wState 0).1.sessions = some pool2 ∧
        (ensureMinPool 1 (fun _ => none) c4wCreate c4wState 0).1.nextSessionIndex =
          some (if pool2.length = 0 then 0
            else min (c4wState.nextSessionIndex.getD 0) (pool2.length - 1)) ∧
        (0 < pool2.length →
          ((ensureMinPool 1 (fun _ => none) c4wCreate c4wState 0).1.nextSessionIndex.getD 0)
            < pool2.length)) ∧
    ((ensureMinPool 1 (fun _ => none) c4wCreate c4wState 0).2 = true →
      (ensureMinPool 1 (fun _ => none) c4wCreate c4wState 0).1.sessions = some [] ∧
      (ensureMinPool 1 (fun _ => none) c4wCreate c4wState 0).1.nextSessionIndex = some 0) :=
  ensureMinPool_cursor_clamp 1 (by decide) (fun _ => none) c4wCreate c4wState 0

end TokenManager

/-! ### The Minecraft pipeline (Hono version of the Minecraft module)

The transport chain (raw-TLS socket, HTTP fallback, fly proxy, vendor
API) is represented by oracle values giving the outcome of each stage;
`atob`/`JSON.parse` of the base64 `textures` property is the runtime's,
passed in as `decodeTex`. -/

namespace Minecraft

inductive MErr
  | api404
  | invalidUsername
  | rateLimited
  | apiFailure
  | nonJson
deriving DecidableEq

structure McProp where
  name : Str
  value : Str
deriving DecidableEq

/-- The mutable profile record threaded through `mojangLib`: the upstream
JSON body plus the fields the pipeline writes onto it
(`formatted_id`, `cached_at`; `cached_at = 0` models the absent field,
matching its JS falsiness). -/
structure ProfRec where
  id : Str
  name : Str
  properties : Option (List McProp) := none
  formattedId : Str := []
  cachedAt : Nat := 0
  requestType : Str := []
deriving DecidableEq

def mcCacheTtl : Nat := 60 * 60 * 24 * 7

structure McPut where
  key : Str
  value : ProfRec
  ttl : Nat
deriving DecidableEq

/-- `helpers.formatId`: insert dashes at 8/12/16/20. -/
def formatId (id : Str) : Str :=
  jsSlice id 0 8 ++ strLit "-" ++ jsSlice id 8 12 ++ strLit "-" ++ jsSlice id 12 16 ++
    strLit "-" ++ jsSlice id 16 20 ++ strLit "-" ++ jsSlice id 20 (id.length : Int)

/-- `String(x).replaceAll('-', '')`. -/
def stripDashes (s : Str) : Str := s.filter (fun c => c ≠ '-')

/-- The TCP-first transport chain of `mojangLib`: try the raw-TLS path,
rethrow `minecraft.invalid_username`, otherwise fall back to the HTTP
chain (whose own fly-proxy/vendor fallbacks are folded into its oracle). -/
def fetchChain (tcpRes httpRes : Except MErr ProfRec) : Except MErr ProfRec :=
  match tcpRes with
  | .ok b => .ok b
  | .error e => if e = .invalidUsername then .error e else httpRes

/-- `mojangLib.profile`. -/
def mojangProfile (bypass : Bool) (cacheP : Option ProfRec) (tcpRes httpRes : Except MErr ProfRec)
    (now : Nat) (uuid : Str) : Except MErr (ProfRec × List McPut) :=
  let kvKey := strLit "minecraft-profile-" ++ stripDashes (lowerStr uuid)
  match (if bypass then none else cacheP) with
  | some r => .ok (r, [])
  | none =>
    match fetchChain tcpRes httpRes with
    | .error e => .error e
    | .ok body =>
      let res := { body with formattedId := formatId body.id, cachedAt := now }
      .ok (res, [⟨kvKey, res, mcCacheTtl⟩])

/-- `mojangLib.username`: resolve the name to an id, then run the profile
step, then restamp `formatted_id`/`cached_at` and cache under the
username key.  On a username-cache hit, `cached_at` is backfilled with
`Date.now()` when absent. -/
def mojangUsername (bypass : Bool) (cacheU : Option ProfRec) (nameTcp nameHttp : Except MErr ProfRec)
    (cacheP : Option ProfRec) (tcpRes httpRes : Except MErr ProfRec)
    (now : Nat) (username : Str) : Except MErr (ProfRec × List McPut) :=
  let kvKey := strLit "minecraft-username-" ++ lowerStr username
  match (if bypass then none else cacheU) with
  | some r => .ok ({ r with cachedAt := if r.cachedAt = 0 then now else r.cachedAt }, [])
  | none =>
    match fetchChain nameTcp nameHttp with
    | .error e => .error e
    | .ok r1 =>
      match mojangProfile bypass cacheP tcpRes httpRes now r1.id with
      | .error e => .error e
      | .ok (res, puts) =>
        let res2 := { res with formattedId := formatId res.id, cachedAt := now }
        .ok (res2, puts ++ [⟨kvKey, res2, mcCacheTtl⟩])

/-- `\w` and `-` (the `^[\w-]+$` input guard). -/
def isWordChar (c : Char) : Bool :=
  isDigitChar c || ('a' ≤ c && c ≤ 'z') || ('A' ≤ c && c ≤ 'Z') || c = '_'

def isWordOrDash (c : Char) : Bool := isWordChar c || c = '-'

/-- The first `textures` property wins (the loop breaks on it); the
base64+JSON decode and `textures.SKIN.url` walk is the runtime's. -/
def findTextureUrl (decodeTex : Str → Option Str) : List McProp → Option Str
  | [] => none
  | p :: rest =>
    if p.name = strLit "textures" then decodeTex p.value else findTextureUrl decodeTex rest

structure McPlayer where
  username : Str
  id : Str
  raw_id : Str
  avatar : Str
  skin_texture : Option Str
  properties : Option (List McProp)
  metaCachedAt : Option Nat
  name_history : List Str
deriving DecidableEq

/-- `Math.round(ms / 1000)` for a non-negative ms value. -/
def jsRoundDiv1000 (ms : Nat) : Nat := (ms + 500) / 1000

/-- The normalisation tail of the Minecraft `lookup` handler. -/
def mcNormalize (decodeTex : Str → Option Str) (profile : ProfRec) : McPlayer :=
  { username := profile.name
    id := profile.formattedId
    raw_id := profile.id
    avatar := strLit "https://crafthead.net/avatar/" ++ profile.id
    skin_texture :=
      match profile.properties with
      | none => none
      | some props => findTextureUrl decodeTex props
    properties := profile.properties
    metaCachedAt := if profile.cachedAt = 0 then none else some (jsRoundDiv1000 profile.cachedAt)
    name_history := [] }

structure McOracles where
  bypass : Bool
  cacheU : Option ProfRec := none
  nameTcp : Except MErr ProfRec := .error .apiFailure
  nameHttp : Except MErr ProfRec := .error .apiFailure
  cacheP : Option ProfRec := none
  tcpP : Except MErr ProfRec := .error .apiFailure
  httpP : Except MErr ProfRec := .error .apiFailure
  decodeTex : Str → Option Str := fun _ => none
  now : Nat := 0

/-- The Minecraft `lookup` handler. -/
def minecraftLookup (o : McOracles) (query : Str) : Except MErr (McPlayer × List McPut) :=
  if query = [] then .error .api404
  else if ¬ (query.all isWordOrDash) then .error .invalidUsername
  else
    match
      (if query.length = 32 ∨ query.length = 36 then
        mojangProfile o.bypass o.cacheP o.tcpP o.httpP o.now query
      else
        mojangUsername o.bypass o.cacheU o.nameTcp o.nameHttp o.cacheP o.tcpP o.httpP o.now query)
    with
    | .error e => .error e
    | .ok (profile, puts) => .ok (mcNormalize o.decodeTex profile, puts)

/-- Character-level splitting on `'-'` (used to state the 8-4-4-4-12
shape of a dashed UUID). -/
def splitOnDash : Str → List Str
  | [] => [[]]
  | c :: rest =>
    if c = '-' then [] :: splitOnDash rest
    else
      match splitOnDash rest with
      | [] => [[c]]
      | seg :: segs => (c :: seg) :: segs

end Minecraft

namespace Minecraft

theorem jsClamp_of_nonneg (n idx : Int) (h : 0 ≤ idx) : jsClamp n idx = min idx n := by
  rw [jsClamp, if_neg (by omega)]

theorem jsSlice_eq_take_drop (s : Str) (a b : Int) (ha : 0 ≤ a) (hb0 : 0 ≤ b)
    (hb : b ≤ (s.length : Int)) :
    jsSlice s a b = (s.drop a.toNat).take (b.toNat - a.toNat) := by
  rw [jsSlice, jsClamp_of_nonneg _ _ ha, jsClamp_of_nonneg _ _ hb0, min_eq_left hb]
  rcases le_total a (s.length : Int) with hle | hle
  · rw [min_eq_left hle]
    by_cases hab : a < b
    · rw [if_pos hab]
      congr 1
      omega
    · rw [if_neg hab]
      have hz : b.toNat - a.toNat = 0 := by omega
      rw [hz, List.take_zero]
  · rw [min_eq_right hle, if_neg (by omega)]
    have hz : b.toNat - a.toNat = 0 := by omega
    rw [hz, List.take_zero]

theorem splitOnDash_nodash (seg : Str) (h : ∀ c ∈ seg, c ≠ '-') : splitOnDash seg = [seg] := by
  induction seg with
  | nil => rfl
  | cons c rest ih =>
    rw [splitOnDash, if_neg (h c (List.mem_cons_self _ _))]
    rw [ih (fun d hd => h d (List.mem_cons_of_mem _ hd))]

theorem splitOnDash_append (seg rest : Str) (h : ∀ c ∈ seg, c ≠ '-') :
    splitOnDash (seg ++ '-' :: rest) = seg :: splitOnDash rest := by
  induction seg with
  | nil =>
    rw [List.nil_append, splitOnDash, if_pos rfl]
  | cons c cs ih =>
    rw [List.cons_append, splitOnDash, if_neg (h c (List.mem_cons_self _ _))]
    rw [ih (fun d hd => h d (List.mem_cons_of_mem _ hd))]

theorem hex_not_dash (c : Char) (h : isHexDigitChar c = true) : c ≠ '-' := by
  intro hc
  subst hc
  simp [isHexDigitChar, isDigitChar] at h

theorem hex_word_or_dash (c : Char) (h : isHexDigitChar c = true) : isWordOrDash c = true := by
  rw [isHexDigitChar, Bool.or_eq_true, Bool.or_eq_true] at h
  rw [isWordOrDash, isWordChar]
  rcases h with (h | h) | h
  · simp [h]
  · rw [Bool.and_eq_true, decide_eq_true_eq, decide_eq_true_eq] at h
    have h1 : 'a' ≤ c := h.1
    have h2 : c ≤ 'z' := le_trans h.2 (by decide)
    simp [h1, h2]
  · rw [Bool.and_eq_true, decide_eq_true_eq, decide_eq_true_eq] at h
    have h1 : 'A' ≤ c := h.1
    have h2 : c ≤ 'Z' := le_trans h.2 (by decide)
    simp [h1, h2]

/-- C8: for a 32-character hex raw UUID, `formatId` produces the dashed
8-4-4-4-12 form, stripping all dashes from it recovers the raw form, and
the Minecraft lookup emits `id` = the formatted UUID and `raw_id` = the
separator-free UUID. -/
theorem formatId_roundtrip_and_emission (raw : Str) (o : McOracles)
    (hlen : raw.length = 32)
    (hhex : ∀ c ∈ raw, isHexDigitChar c = true)
    (hbypass : o.bypass = false) (hcache : o.cacheP = none)
    (body : ProfRec) (htcp : o.tcpP = .ok body) (hid : body.id = raw) :
    stripDashes (formatId raw) = raw ∧
    (splitOnDash (formatId raw)).map List.length = [8, 4, 4, 4, 12] ∧
    ∃ player puts, minecraftLookup o raw = .ok (player, puts) ∧
      player.id = formatId raw ∧ player.raw_id = raw := by
  have hnd : ∀ c ∈ raw, c ≠ '-' := fun c hc => hex_not_dash c (hhex c hc)
  have hseg : formatId raw =
      raw.take 8 ++ '-' :: ((raw.drop 8).take 4 ++ '-' :: ((raw.drop 12).take 4 ++
        '-' :: ((raw.drop 16).take 4 ++ '-' :: (raw.drop 20).take 12))) := by
    rw [formatId]
    rw [jsSlice_eq_take_drop raw 0 8 (by norm_num) (by norm_num) (by rw [hlen]; norm_num),
      jsSlice_eq_take_drop raw 8 12 (by norm_num) (by norm_num) (by rw [hlen]; norm_num),
      jsSlice_eq_take_drop raw 12 16 (by norm_num) (by norm_num) (by rw [hlen]; norm_num),
      jsSlice_eq_take_drop raw 16 20 (by norm_num) (by norm_num) (by rw [hlen]; norm_num),
      jsSlice_eq_take_drop raw 20 (raw.length : Int) (by norm_num) (by norm_num) (le_refl _)]
    simp only [Int.toNat_ofNat, Int.toNat_natCast, hlen, List.drop_zero]
    norm_num
    simp only [List.append_assoc, List.cons_append, List.nil_append, strLit]
    rfl
  have hmem8 : ∀ c ∈ raw.take 8, c ≠ '-' := fun c hc => hnd c (List.mem_of_mem_take hc)
  have hmemT : ∀ k n : Nat, ∀ c ∈ (raw.drop k).take n, c ≠ '-' :=
    fun k n c hc => hnd c (List.mem_of_mem_drop (List.mem_of_mem_take hc))
  refine ⟨?_, ?_, ?_⟩
  · rw [hseg, stripDashes]
    simp only [List.filter_append, List.filter_cons]
    have hdash : (('-' : Char) ≠ '-' : Bool) = false := by decide
    rw [hdash]
    simp only [Bool.false_eq_true, if_false]
    rw [List.filter_eq_self.mpr (fun c hc => decide_eq_true (hmem8 c hc)),
      List.filter_eq_self.mpr (fun c hc => decide_eq_true (hmemT 8 4 c hc)),
      List.filter_eq_self.mpr (fun c hc => decide_eq_true (hmemT 12 4 c hc)),
      List.filter_eq_self.mpr (fun c hc => decide_eq_true (hmemT 16 4 c hc)),
      List.filter_eq_self.mpr (fun c hc => decide_eq_true (hmemT 20 12 c hc))]
    have h4 : (raw.drop 16).take 4 ++ (raw.drop 20).take 12 = raw.drop 16 := by
      have ht : (raw.drop 20).take 12 = raw.drop 20 := by
        apply List.take_of_length_le
        simp [hlen]
      rw [ht]
      have hx := List.take_append_drop 4 (raw.drop 16)
      rw [List.drop_drop] at hx
      simpa using hx
    have h3 : (raw.drop 12).take 4 ++ raw.drop 16 = raw.drop 12 := by
      have hx := List.take_append_drop 4 (raw.drop 12)
      rw [List.drop_drop] at hx
      simpa using hx
    have h2 : (raw.drop 8).take 4 ++ raw.drop 12 = raw.drop 8 := by
      have hx := List.take_append_drop 4 (raw.drop 8)
      rw [List.drop_drop] at hx
      simpa using hx
    rw [h4, h3, h2, List.take_append_drop]
  · rw [hseg]
    rw [splitOnDash_append _ _ hmem8, splitOnDash_append _ _ (hmemT 8 4),
      splitOnDash_append _ _ (hmemT 12 4), splitOnDash_append _ _ (hmemT 16 4),
      splitOnDash_nodash _ (hmemT 20 12)]
    simp only [List.map_cons, List.map_nil, List.length_take, List.length_drop, hlen]
    norm_num
  · have hne : raw ≠ [] := by
      intro h
      rw [h] at hlen
      simp at hlen
    have hword : raw.all isWordOrDash = true :=
      List.all_eq_true.mpr (fun c hc => hex_word_or_dash c (hhex c hc))
    rw [minecraftLookup, if_neg hne]
    rw [if_neg (by simp [hword])]
    rw [if_pos (Or.inl hlen)]
    rw [mojangProfile, hbypass, hcache]
    simp only [fetchChain, htcp]
    refine ⟨_, _, rfl, ?_, ?_⟩
    · rw [mcNormalize]
      simp [hid]
    · rw [mcNormalize]
      simp [hid]

/-- The spec's own example UUID. -/
def exampleRaw : Str := strLit "ef6134805b6244e4a4467fbe85d65513"

def exampleBody : ProfRec := { id := exampleRaw, name := strLit "CherryJimbo" }

def exampleOracles : McOracles := { bypass := false, tcpP := .ok exampleBody, now := 1700000000000 }

/-- Witness for C8 at the spec's example UUID. -/
theorem formatId_roundtrip_and_emission_witness :
    stripDashes (formatId exampleRaw) = exampleRaw ∧
    (splitOnDash (formatId exampleRaw)).map List.length = [8, 4, 4, 4, 12] ∧
    ∃ player puts, minecraftLookup exampleOracles exampleRaw = .ok (player, puts) ∧
      player.id = formatId exampleRaw ∧ player.raw_id = exampleRaw :=
  formatId_roundtrip_and_emission exampleRaw exampleOracles (by decide) (by decide)
    rfl rfl exampleBody rfl rfl

end Minecraft

/-! ### A small JSON-value model (shared by the Xbox and Steam pipelines)

`undef` models JavaScript `undefined` (reading an absent property);
truthiness and `String(x)` coercion follow JS. -/

inductive JVal
  | str (s : Str)
  | num (n : Int)
  | bool (b : Bool)
  | null
  | undef
  | obj (fields : List (Str × JVal))

abbrev JObj := List (Str × JVal)

def jTruthy : JVal → Bool
  | .str s => s ≠ []
  | .num n => n ≠ 0
  | .bool b => b
  | .null => false
  | .undef => false
  | .obj _ => true

/-- JS property read `o[k]` (`undefined` when absent). -/
def objGet (o : JObj) (k : Str) : JVal :=
  match o.find? (fun p => p.1 = k) with
  | some p => p.2
  | none => JVal.undef

/-- JS property write `o[k] = v`: overwrite in place or append. -/
def objSet (o : JObj) (k : Str) (v : JVal) : JObj :=
  match o with
  | [] => [(k, v)]
  | (k0, v0) :: rest => if k0 = k then (k, v) :: rest else (k0, v0) :: objSet rest k v

/-- Object spread `{...a, ...b}`: start from `a`, assign each entry of
`b` in order (so `b` wins on key collisions). -/
def spreadMerge (a b : JObj) : JObj :=
  b.foldl (fun acc p => objSet acc p.1 p.2) a

def intToStr (n : Int) : Str :=
  if n < 0 then '-' :: Nat.toDigits 10 n.natAbs else Nat.toDigits 10 n.toNat

/-- JS `String(x)` / template-literal coercion. -/
def jsToString : JVal → Str
  | .str s => s
  | .num n => intToStr n
  | .bool b => if b then strLit "true" else strLit "false"
  | .null => strLit "null"
  | .undef => strLit "undefined"
  | .obj _ => strLit "[object Object]"

/-- Property read through a possibly-primitive value: `undefined`/`null`
raise a `TypeError` (`none`); other primitives yield `undefined`. -/
def jGetProp (v : JVal) (k : Str) : Option JVal :=
  match v with
  | .obj m => some (objGet m k)
  | .undef => none
  | .null => none
  | _ => some JVal.undef

/-! ### The Xbox pipeline (Hono version of the Xbox module)

`camelCase` lives in the repository's `helpers` module, which is not part
of the provided sources, and the avatar query-string rewrite goes through
the runtime's `URL` API; both are passed in as function parameters. -/

namespace Xbox

inductive XErr
  | notFound
  | rateLimited
  | badResponseCode
  | badResponse
  | nonJson
  | apiFailure
  | typeError
deriving DecidableEq

structure XSetting where
  sid : Str
  value : JVal

structure XProfileUser where
  uid : JVal
  settings : List XSetting

structure XUpstream where
  profileUsers : List XProfileUser

inductive XCacheOutcome
  | hit (o : JObj)
  | miss
  | fail

structure XPut where
  key : Str
  value : JObj
  ttl : Nat

structure XOracles where
  bypass : Bool := false
  cacheGet : XCacheOutcome := .miss
  upstream : Except XErr XUpstream := .error .apiFailure
  camel : Str → Str := fun s => s
  urlFix : Str → Str := fun s => s
  now : Nat := 0

def kvCacheTtl : Nat := 60 * 60 * 24 * 7
def notFoundTtl : Nat := 60 * 60

/-- The negative-cache sentinel the source writes: `{ __not_found: true }`. -/
def notFoundSentinel : JObj := [(strLit "__not_found", .bool true)]

/-- The sentinel shape named by the specification: `{ not_found: true }`. -/
def specSentinel : JObj := [(strLit "not_found", .bool true)]

/-- One step of the `settings` loop in `helpers.parse`. -/
def applySetting (camel : Str → Str) (player : JObj) (st : XSetting) : JObj :=
  if st.sid = strLit "Gamertag" then objSet player (strLit "username") st.value
  else if st.sid = strLit "GameDisplayPicRaw" then objSet player (strLit "avatar") st.value
  else if st.sid = strLit "UniqueModernGamertag" then
    objSet player (strLit "uniqueModernGamertag") st.value
  else if st.sid = strLit "ModernGamertag" then objSet player (strLit "modernGamertag") st.value
  else if st.sid = strLit "ModernGamertagSuffix" then
    objSet player (strLit "modernGamertagSuffix") st.value
  else
    match objGet player (strLit "meta") with
    | .obj m => objSet player (strLit "meta") (.obj (objSet m (camel st.sid) st.value))
    | _ => player

/-- The username fallback chain
`Gamertag → UniqueModernGamertag → ModernGamertag → meta.realName`
(reading `meta.realName` can raise a `TypeError` when `meta` is absent). -/
def fixUsername (player : JObj) : Option JObj :=
  if jTruthy (objGet player (strLit "username")) then some player
  else
    match jGetProp (objGet player (strLit "meta")) (strLit "realName") with
    | none => none
    | some u3 =>
      let u1 := objGet player (strLit "uniqueModernGamertag")
      let u2 := objGet player (strLit "modernGamertag")
      some (objSet player (strLit "username")
        (if jTruthy u1 then u1 else if jTruthy u2 then u2 else u3))

/-- The avatar fixups: strip `mode=Padding` / force 180×180 on
`images-eds-ssl.xboxlive.com` URLs (via the runtime `URL` API, `urlFix`),
then the `avatar-ssl` fallback when no avatar is present. -/
def fixAvatar (urlFix : Str → Str) (player : JObj) : Option JObj :=
  match
    (match objGet player (strLit "avatar") with
    | .str s =>
      if s ≠ [] ∧ (findPat (strLit "images-eds-ssl.xboxlive.com") s).isSome then
        some (objSet player (strLit "avatar") (.str (urlFix s)))
      else some player
    | .undef => some player
    | .null => some player
    | .num n => if n ≠ 0 then none else some player
    | .bool b => if b then none else some player
    | .obj _ => none)
  with
  | none => none
  | some p1 =>
    if jTruthy (objGet p1 (strLit "avatar")) then some p1
    else
      some (objSet p1 (strLit "avatar")
        (.str (strLit "https://avatar-ssl.xboxlive.com/avatar/" ++
          jsToString (objGet p1 (strLit "username")) ++ strLit "/avatarpic-l.png")))

/-- `helpers.parse` (`none` = the JS code would throw a `TypeError`). -/
def xboxParse (camel urlFix : Str → Str) (d : XUpstream) : Option JObj :=
  match
    (match d.profileUsers.head? with
    | some r =>
      fixUsername (r.settings.foldl (applySetting camel)
        [(strLit "id", r.uid), (strLit "meta", .obj [])])
    | none => fixUsername [])
  with
  | none => none
  | some p => fixAvatar urlFix p

/-- `^\d{1,16}$`. -/
def isXuidB (q : Str) : Bool :=
  decide (1 ≤ q.length) && decide (q.length ≤ 16) && q.all isDigitChar

/-- The Xbox `getProfile`: result (`Except`), cache writes, and whether
the upstream was called. -/
def xboxGetProfile (o : XOracles) (query : Str) :
    Except XErr (JObj × Str) × List XPut × Bool :=
  match (if o.bypass then XCacheOutcome.miss else o.cacheGet) with
  | .hit c =>
    if jTruthy (objGet c (strLit "__not_found")) then (.error .notFound, [], false)
    else (.ok (c, strLit "kv_cache"), [], false)
  | _ =>
    let kvKey := strLit "xbox-profile-" ++ lowerStr query
    let returnData0 : JObj := if isXuidB query then [(strLit "id", .str query)] else []
    match o.upstream with
    | .error e =>
      if e = .notFound then (.error e, [⟨kvKey, notFoundSentinel, notFoundTtl⟩], true)
      else (.error e, [], true)
    | .ok d =>
      match xboxParse o.camel o.urlFix d with
      | none => (.error .typeError, [], true)
      | some parsed =>
        let merged := objSet (spreadMerge parsed returnData0) (strLit "cached_at") (.num o.now)
        let xuidKey := strLit "xbox-profile-" ++ lowerStr (jsToString (objGet merged (strLit "id")))
        (.ok (merged, strLit "http"),
          ⟨kvKey, merged, kvCacheTtl⟩ ::
            (if jTruthy (objGet merged (strLit "id")) ∧
                lowerStr (jsToString (objGet merged (strLit "id"))) ≠ lowerStr query then
              [⟨xuidKey, merged, kvCacheTtl⟩]
            else []),
          true)

end Xbox

namespace Xbox

theorem objGet_objSet_self (o : JObj) (k : Str) (v : JVal) :
    objGet (objSet o k v) k = v := by
  induction o with
  | nil => simp [objSet, objGet, List.find?]
  | cons p rest ih =>
    by_cases hk : p.1 = k
    · simp [objSet, hk, objGet, List.find?]
    · simp only [objSet, if_neg hk]
      simp only [objGet, List.find?_cons] at ih ⊢
      simp only [hk, decide_eq_true_eq, decide_eq_false hk]
      exact ih

theorem objGet_objSet_ne (o : JObj) (k : Str) (v : JVal) (k2 : Str) (h : k2 ≠ k) :
    objGet (objSet o k v) k2 = objGet o k2 := by
  have hkk : ¬ (k = k2) := fun hc => h hc.symm
  induction o with
  | nil =>
    simp [objSet, objGet, List.find?, hkk]
  | cons p rest ih =>
    by_cases hk : p.1 = k
    · simp only [objSet, if_pos hk]
      simp only [objGet, List.find?_cons]
      have hne2 : ¬ (p.1 = k2) := by
        rw [hk]
        exact hkk
      simp [hkk, hne2]
    · simp only [objSet, if_neg hk]
      simp only [objGet, List.find?_cons] at ih ⊢
      by_cases hp : p.1 = k2
      · simp [hp]
      · simp only [decide_eq_false hp, Bool.false_eq_true]
        simpa using ih

/-- C6 (amended): the Xbox negative cache uses the sentinel
`{ __not_found: true }`: on an upstream `xbox.not_found` (cache miss) it
is written under the original query's `xbox-profile-` key with the
one-hour TTL, and a cache read returning the sentinel short-circuits to
`xbox.not_found` without calling the upstream. -/
theorem xbox_negative_cache (o : XOracles) (query : Str) (hb : o.bypass = false) :
    (o.cacheGet = .hit notFoundSentinel →
      xboxGetProfile o query = (.error .notFound, [], false)) ∧
    (o.cacheGet = .miss → o.upstream = .error .notFound →
      xboxGetProfile o query =
        (.error .notFound,
          [⟨strLit "xbox-profile-" ++ lowerStr query, notFoundSentinel, notFoundTtl⟩], true)) := by
  constructor
  · intro hhit
    rw [xboxGetProfile, hb, hhit]
    rfl
  · intro hmiss hup
    rw [xboxGetProfile, hb, hmiss, hup]
    rfl

/-- Witness for C6 at a concrete sentinel cache hit. -/
theorem xbox_negative_cache_witness :
    (({ cacheGet := .hit notFoundSentinel } : XOracles).cacheGet = .hit notFoundSentinel →
      xboxGetProfile { cacheGet := .hit notFoundSentinel } (strLit "gamer") =
        (.error .notFound, [], false)) ∧
    (({ cacheGet := .hit notFoundSentinel } : XOracles).cacheGet = .miss →
      ({ cacheGet := .hit notFoundSentinel } : XOracles).upstream = .error .notFound →
      xboxGetProfile { cacheGet := .hit notFoundSentinel } (strLit "gamer") =
        (.error .notFound,
          [⟨strLit "xbox-profile-" ++ lowerStr (strLit "gamer"), notFoundSentinel,
            notFoundTtl⟩], true)) :=
  xbox_negative_cache { cacheGet := .hit notFoundSentinel } (strLit "gamer") rfl

/-- C6 counterexample: the sentinel the code writes and tests for is
`{ __not_found: true }`, not the spec's `{ not_found: true }`: the two
objects differ, an upstream not-found writes the former, and a cached
`{ not_found: true }` is served back as an ordinary profile instead of
emitting `xbox.not_found`. -/
theorem xbox_sentinel_counterexample :
    notFoundSentinel ≠ specSentinel ∧
    (xboxGetProfile { cacheGet := .hit specSentinel } (strLit "q")).1 =
      .ok (specSentinel, strLit "kv_cache") ∧
    (xboxGetProfile { cacheGet := .miss, upstream := .error .notFound } (strLit "q")).2.1 =
      [⟨strLit "xbox-profile-q", notFoundSentinel, notFoundTtl⟩] := by
  refine ⟨?_, rfl, rfl⟩
  intro h
  exact absurd (congrArg (List.map Prod.fst) h) (by decide)

/-- C10: on the XUID path (`^\d{1,16}$`), the query-derived `id` written
before the upstream call overrides the parsed upstream `id` in the
object-spread merge, so the returned player's `id` is the queried XUID
string verbatim, whatever the upstream reported. -/
theorem xbox_xuid_id_override (o : XOracles) (query : Str)
    (hb : o.bypass = false) (hm : o.cacheGet = .miss)
    (hq : isXuidB query = true)
    (d : XUpstream) (hup : o.upstream = .ok d)
    (parsed : JObj) (hp : xboxParse o.camel o.urlFix d = some parsed) :
    ∃ final puts, xboxGetProfile o query = (.ok (final, strLit "http"), puts, true) ∧
      objGet final (strLit "id") = .str query := by
  rw [xboxGetProfile, hb, hm]
  simp only [hup, hp, hq, if_true]
  refine ⟨_, _, rfl, ?_⟩
  have hone : spreadMerge parsed [(strLit "id", .str query)] =
      objSet parsed (strLit "id") (.str query) := rfl
  rw [hone, objGet_objSet_ne _ _ _ _ (by decide), objGet_objSet_self]

def c10Upstream : XUpstream :=
  { profileUsers := [{ uid := .str (strLit "999"), settings := [] }] }

def c10Oracles : XOracles := { cacheGet := .miss, upstream := .ok c10Upstream, now := 5 }

/-- Witness for C10: the upstream reports id `999` but the query `123`
wins. -/
theorem xbox_xuid_id_override_witness :
    ∃ final puts,
      xboxGetProfile c10Oracles (strLit "123") = (.ok (final, strLit "http"), puts, true) ∧
      objGet final (strLit "id") = .str (strLit "123") :=
  xbox_xuid_id_override c10Oracles (strLit "123") rfl rfl (by decide) c10Upstream rfl
    (objSet [(strLit "id", .str (strLit "999")),
      (strLit "meta", .obj []), (strLit "username", .undef)] (strLit "avatar")
      (.str (strLit "https://avatar-ssl.xboxlive.com/avatar/undefined/avatarpic-l.png")))
    rfl

end Xbox

/-! ### The Steam pipeline (`getProfile` of `src/libs/steam.ts`)

The `steamid` library is a black box per the specification, passed in as
a parser function; the two Steam web API calls are oracles. -/

namespace Steam

inductive SErr
  | invalidId
  | rateLimited
  | apiFailure
  | nonJson
deriving DecidableEq

structure SteamIdRec where
  steam64 : Str
  s2 : Str
  s2new : Str
  s3 : Str
  valid : Bool

structure SOracles where
  bypass : Bool := false
  cacheGet : Option JObj := none
  vanityRes : Option Str := none
  steamid : Str → Option SteamIdRec := fun _ => none
  summaries : Except SErr (Option JObj) := .error .apiFailure
  now : Nat := 0

structure SPut where
  key : Str
  value : JObj
  ttl : Nat

def kvCacheTtl : Nat := 60 * 60 * 24 * 7

def isIdForm (q : Str) : Bool :=
  strStartsWith q (strLit "STEAM_") || strStartsWith q (strLit "7656119") ||
    strStartsWith q (strLit "U:") || strStartsWith q (strLit "[U:")

/-- The normalisation tail of the Steam `getProfile`, in source
assignment order (`meta` seeded with the four SteamID encodings, then
spread-merged with the player summary; `cached_at = Date.now()`). -/
def steamBuild (rec : SteamIdRec) (ps : JObj) (now : Nat) : JObj :=
  objSet
    (objSet
      (objSet
        (objSet (objSet [(strLit "meta", JVal.obj [])] (strLit "id") (.str rec.steam64))
          (strLit "avatar") (objGet ps (strLit "avatarfull")))
        (strLit "username") (objGet ps (strLit "personaname")))
      (strLit "meta")
      (.obj (spreadMerge
        (objSet
          (objSet
            (objSet (objSet [] (strLit "steam2id") (.str rec.s2))
              (strLit "steam2id_new") (.str rec.s2new))
            (strLit "steam3id") (.str rec.s3))
          (strLit "steam64id") (.str rec.steam64))
        ps)))
    (strLit "cached_at") (.num now)

def steamGetProfile (o : SOracles) (query : Str) : Except SErr (JObj × Str) × List SPut :=
  match (if o.bypass then none else o.cacheGet) with
  | some c => (.ok (c, strLit "kv_cache"), [])
  | none =>
    let steamID := if isIdForm query then query else o.vanityRes.getD query
    match o.steamid steamID with
    | none => (.error .invalidId, [])
    | some rec =>
      if ¬ rec.valid then (.error .invalidId, [])
      else
        match o.summaries with
        | .error e => (.error e, [])
        | .ok none => (.error .invalidId, [])
        | .ok (some ps) =>
          let final := steamBuild rec ps o.now
          let kvKey := strLit "steam-profile-" ++ lowerStr query
          let steam64Key := strLit "steam-profile-" ++ rec.steam64
          (.ok (final, strLit "http"),
            ⟨kvKey, final, kvCacheTtl⟩ ::
              (if steam64Key ≠ kvKey then [⟨steam64Key, final, kvCacheTtl⟩] else []))

end Steam

/-! ### The Hytale worker pipeline (`src/libs/hytale.ts`)

The three transports (direct Fetch, container proxy, vendor API) and the
token-manager calls are oracles; `JSON.parse` of the skin blob is the
runtime's (`parseSkin`).  The trace records every upstream profile
attempt in order; `Attempt.tcp` exists so that the specification's
raw-TLS stage can be talked about — the source never produces it. -/

namespace Hytale

inductive HyCode
  | notFound
  | invalidIdentifier
  | authFailure
  | rateLimited
  | apiFailure
  | nonJson
  | noSessions
deriving DecidableEq

structure HyErr where
  code : HyCode
  isAuthError : Bool := false
  statusCode : Option Nat := none
deriving DecidableEq

inductive Attempt
  | tcp
  | http
  | container
  | nodecraft (sessionToken : String)
deriving DecidableEq

structure HyApiData where
  uuid : Str
  username : Str
  skin : Option Str := none

structure HyProfile where
  id : Str
  raw_id : Str
  username : Str
  avatar : Str
  skin : Option Str
  metaCachedAt : Option Nat
deriving DecidableEq

/-- `helpers.parse` plus the `meta.cached_at` stamp added by the caller
(`Math.round(Date.now() / 1000)`, i.e. seconds). -/
def hytaleParse (parseSkin : Str → Option Str) (d : HyApiData) (now : Nat) : HyProfile :=
  { id := d.uuid
    raw_id := d.uuid.filter (fun c => c ≠ '-')
    username := d.username
    avatar := strLit "https://crafthead.net/hytale/avatar/" ++ d.uuid
    skin := d.skin.bind parseSkin
    metaCachedAt := some (Minecraft.jsRoundDiv1000 now) }

/-- `shouldSkipContainerFallback`. -/
def shouldSkipContainerFallback (e : HyErr) : Bool :=
  e.code = .notFound || e.code = .invalidIdentifier || e.isAuthError

/-- One `fetchProfileFromApi` pass: its two transport outcomes. -/
structure PassOracle where
  httpRes : Except HyErr HyApiData := .error { code := .apiFailure }
  containerRes : Except HyErr HyApiData := .error { code := .apiFailure }

/-- `fetchProfileFromApi`: direct Fetch first, then the container proxy
for every error that is not auth/not-found/invalid-identifier. -/
def fetchProfileFromApi (parseSkin : Str → Option Str) (o : PassOracle) (now : Nat) :
    Except HyErr (HyProfile × String) × List Attempt :=
  match o.httpRes with
  | .ok d => (.ok (hytaleParse parseSkin d now, "http"), [.http])
  | .error e =>
    if shouldSkipContainerFallback e then (.error e, [.http])
    else
      match o.containerRes with
      | .ok d => (.ok (hytaleParse parseSkin d now, "container"), [.http, .container])
      | .error e2 => (.error e2, [.http, .container])

/-- `^\w{3,16}$`. -/
def isUsernameLike (q : Str) : Bool :=
  decide (3 ≤ q.length) && decide (q.length ≤ 16) && q.all Minecraft.isWordChar

/-- Chomp exactly `n` hex digits. -/
def chompHex (n : Nat) (s : Str) : Option Str :=
  if (s.take n).length = n ∧ (s.take n).all isHexDigitChar then some (s.drop n) else none

def chompDash (s : Str) : Str :=
  match s with
  | '-' :: r => r
  | _ => s

/-- `^[\da-f]{8}(?:-?[\da-f]{4}){3}-?[\da-f]{12}$/i`. -/
def isUuidB (q : Str) : Bool :=
  (do
    let r1 ← chompHex 8 q
    let r2 ← chompHex 4 (chompDash r1)
    let r3 ← chompHex 4 (chompDash r2)
    let r4 ← chompHex 4 (chompDash r3)
    chompHex 12 (chompDash r4)) = some []

def isValidIdentifier (q : Str) : Bool := isUsernameLike q || isUuidB q

structure HyOracles where
  bypass : Bool := false
  cacheRes : Option HyProfile := none
  tokenRes : Except HyErr String := .error { code := .noSessions }
  pass1 : PassOracle := {}
  tokenRetry : Except HyErr String := .error { code := .noSessions }
  passRetry : PassOracle := {}
  tokenContainer : Except HyErr String := .error { code := .noSessions }
  fallbackContainer : Except HyErr HyApiData := .error { code := .apiFailure }
  vendor : Except HyErr HyApiData := .error { code := .apiFailure }
  parseSkin : Str → Option Str := fun _ => none
  now : Nat := 0

/-- The `catch` block of `getProfile`: auth errors invalidate and retry
once; `hytale.rate_limited` falls back to the container proxy with
`getSessionTokenForContainer`'s session and, on a further 429, to the
vendor API with that session token in the query string. -/
def handleCatch (o : HyOracles) (e : HyErr) (atts : List Attempt) :
    Except HyErr (HyProfile × String) × List Attempt :=
  if e.isAuthError then
    match o.tokenRetry with
    | .error e2 => (.error e2, atts)
    | .ok _ =>
      match fetchProfileFromApi o.parseSkin o.passRetry o.now with
      | (r, atts2) => (r, atts ++ atts2)
  else if e.code = .rateLimited then
    match o.tokenContainer with
    | .error e2 => (.error e2, atts)
    | .ok ctok =>
      match o.fallbackContainer with
      | .ok d =>
        (.ok (hytaleParse o.parseSkin d o.now, "container_fallback"), atts ++ [.container])
      | .error e2 =>
        if e2.code = .rateLimited ∨ e2.statusCode = some 429 then
          match o.vendor with
          | .ok d =>
            (.ok (hytaleParse o.parseSkin d o.now, "nodecraft_api"),
              atts ++ [.container, .nodecraft ctok])
          | .error e3 => (.error e3, atts ++ [.container, .nodecraft ctok])
        else (.error e2, atts ++ [.container])
  else (.error e, atts)

/-- The Hytale `getProfile` (cache writes omitted from the result are
returned alongside). -/
def hytaleGetProfile (o : HyOracles) (query : Str) :
    Except HyErr (HyProfile × String) × List Attempt :=
  match (if o.bypass then none else o.cacheRes) with
  | some d => (.ok (d, "kv_cache"), [])
  | none =>
    if ¬ isValidIdentifier query then (.error { code := .invalidIdentifier }, [])
    else
      match o.tokenRes with
      | .error e => handleCatch o e []
      | .ok _ =>
        match fetchProfileFromApi o.parseSkin o.pass1 o.now with
        | (.ok v, atts) => (.ok v, atts)
        | (.error e, atts) => handleCatch o e atts

end Hytale

namespace Hytale

theorem fetchProfileFromApi_trace (p : Str → Option Str) (o : PassOracle) (n : Nat) :
    (fetchProfileFromApi p o n).2 = [Attempt.http] ∨
      (fetchProfileFromApi p o n).2 = [Attempt.http, Attempt.container] := by
  rcases h1 : o.httpRes with e | d
  · rcases hs : shouldSkipContainerFallback e with _ | _
    · rcases h2 : o.containerRes with e2 | d2
      · simp [fetchProfileFromApi, h1, hs, h2]
      · simp [fetchProfileFromApi, h1, hs, h2]
    · simp [fetchProfileFromApi, h1, hs]
  · simp [fetchProfileFromApi, h1]

theorem handleCatch_trace (o : HyOracles) (e : HyErr) (atts : List Attempt) :
    ∃ extra, (handleCatch o e atts).2 = atts ++ extra ∧ Attempt.tcp ∉ extra := by
  rcases ha : e.isAuthError with _ | _
  · rcases hr : decide (e.code = HyCode.rateLimited) with _ | _
    · refine ⟨[], ?_, by simp⟩
      simp [handleCatch, ha, of_decide_eq_false hr]
    · have hr2 : e.code = HyCode.rateLimited := of_decide_eq_true hr
      rcases hct : o.tokenContainer with e2 | ctok
      · refine ⟨[], ?_, by simp⟩
        simp [handleCatch, ha, hr2, hct]
      · rcases hfc : o.fallbackContainer with e2 | d
        · rcases h429 : decide (e2.code = HyCode.rateLimited ∨ e2.statusCode = some 429)
            with _ | _
          · refine ⟨[Attempt.container], ?_, by simp⟩
            simp [handleCatch, ha, hr2, hct, hfc, of_decide_eq_false h429]
          · have h4 := of_decide_eq_true h429
            rcases hv : o.vendor with e3 | d2
            · refine ⟨[Attempt.container, Attempt.nodecraft ctok], ?_, by simp⟩
              simp [handleCatch, ha, hr2, hct, hfc, h4, hv]
            · refine ⟨[Attempt.container, Attempt.nodecraft ctok], ?_, by simp⟩
              simp [handleCatch, ha, hr2, hct, hfc, h4, hv]
        · refine ⟨[Attempt.container], ?_, by simp⟩
          simp [handleCatch, ha, hr2, hct, hfc]
  · rcases ht : o.tokenRetry with e2 | tok
    · refine ⟨[], ?_, by simp⟩
      simp [handleCatch, ha, ht]
    · refine ⟨(fetchProfileFromApi o.parseSkin o.passRetry o.now).2, ?_, ?_⟩
      · simp [handleCatch, ha, ht]
      · rcases fetchProfileFromApi_trace o.parseSkin o.passRetry o.now with h | h <;>
          simp [h]

end Hytale

namespace Hytale

theorem fetchProfileFromApi_no_tcp (p : Str → Option Str) (o : PassOracle) (n : Nat) :
    Attempt.tcp ∉ (fetchProfileFromApi p o n).2 := by
  rcases fetchProfileFromApi_trace p o n with h | h <;> simp [h]

theorem hytaleGetProfile_no_tcp (o : HyOracles) (query : Str) :
    Attempt.tcp ∉ (hytaleGetProfile o query).2 := by
  rw [hytaleGetProfile]
  rcases hch : (if o.bypass then none else o.cacheRes) with _ | d
  · rcases hv : decide (isValidIdentifier query = true) with _ | _
    · simp [of_decide_eq_false hv]
    · have hv2 := of_decide_eq_true hv
      rcases ht : o.tokenRes with e | tok
      · simp only [hv2]
        obtain ⟨extra, hx, hnt⟩ := handleCatch_trace o e []
        simp [hx, hnt]
      · simp only [hv2, not_true, if_false]
        rcases hf : fetchProfileFromApi o.parseSkin o.pass1 o.now with ⟨r, atts⟩
        have hatts : Attempt.tcp ∉ atts := by
          have := fetchProfileFromApi_no_tcp o.parseSkin o.pass1 o.now
          rw [hf] at this
          exact this
        rcases r with e | v
        · obtain ⟨extra, hx, hnt⟩ := handleCatch_trace o e atts
          simp only [hx]
          simp [List.mem_append, hatts, hnt]
        · simpa using hatts
  · simp

end Hytale

namespace Hytale

theorem hytaleGetProfile_head_http (o : HyOracles) (query : Str) (tok : String)
    (hb : o.bypass = false) (hc : o.cacheRes = none) (hv : isValidIdentifier query = true)
    (ht : o.tokenRes = .ok tok) :
    ∃ rest, (hytaleGetProfile o query).2 = Attempt.http :: rest := by
  rw [hytaleGetProfile]
  have hch : (if o.bypass then none else o.cacheRes) = (none : Option HyProfile) := by
    rw [hb, hc]
    rfl
  rw [hch]
  simp only [hv, eq_self_iff_true, not_true, if_false, ht]
  rcases hf : fetchProfileFromApi o.parseSkin o.pass1 o.now with ⟨r, atts⟩
  have hatts : atts = [Attempt.http] ∨ atts = [Attempt.http, Attempt.container] := by
    have := fetchProfileFromApi_trace o.parseSkin o.pass1 o.now
    rw [hf] at this
    exact this
  rcases r with e | v
  · obtain ⟨extra, hx, _⟩ := handleCatch_trace o e atts
    refine ⟨atts.tail ++ extra, ?_⟩
    simp only [hx]
    rcases hatts with h | h <;> rw [h] <;> rfl
  · refine ⟨atts.tail, ?_⟩
    rcases hatts with h | h <;> rw [h] <;> rfl

theorem hytale_rate_limit_cascade (o : HyOracles) (query : Str) (e1 e2 e3 : HyErr)
    (d : HyApiData) (tok ctok : String)
    (hb : o.bypass = false) (hc : o.cacheRes = none) (hv : isValidIdentifier query = true)
    (ht : o.tokenRes = .ok tok) (h1 : o.pass1.httpRes = .error e1)
    (hskip : shouldSkipContainerFallback e1 = false)
    (h2 : o.pass1.containerRes = .error e2) (h2a : e2.isAuthError = false)
    (h2r : e2.code = HyCode.rateLimited) (hct : o.tokenContainer = .ok ctok)
    (hfc : o.fallbackContainer = .error e3)
    (h3 : e3.code = HyCode.rateLimited ∨ e3.statusCode = some 429)
    (hvd : o.vendor = .ok d) :
    hytaleGetProfile o query =
      (.ok (hytaleParse o.parseSkin d o.now, "nodecraft_api"),
        [Attempt.http, Attempt.container, Attempt.container, Attempt.nodecraft ctok]) := by
  rw [hytaleGetProfile]
  have hch : (if o.bypass then none else o.cacheRes) = (none : Option HyProfile) := by
    rw [hb, hc]
    rfl
  rw [hch]
  simp only [hv, eq_self_iff_true, not_true, if_false, ht, fetchProfileFromApi, h1,
    hskip, Bool.false_eq_true, h2, handleCatch, h2a, h2r, hct, hfc, hvd, if_pos h3, if_true]
  rfl
end Hytale

namespace Hytale

/-- C5 (amended): a Hytale lookup that misses the cache never opens a
raw-TLS transport.  With a session in hand the first upstream attempt is
the direct Fetch client; a non-terminal Fetch failure falls back to the
in-pass container proxy; and when that pass ends rate-limited the catch
block tries the container proxy once more (with
`getSessionTokenForContainer`'s session) and, on a further 429, the
vendor API with that container session token in the query string. -/
theorem hytale_transport_order :
    (∀ (o : HyOracles) (query : Str), Attempt.tcp ∉ (hytaleGetProfile o query).2) ∧
    (∀ (o : HyOracles) (query : Str) (tok : String),
      o.bypass = false → o.cacheRes = none → isValidIdentifier query = true →
      o.tokenRes = .ok tok →
      ∃ rest, (hytaleGetProfile o query).2 = Attempt.http :: rest) ∧
    (∀ (o : HyOracles) (query : Str) (e1 e2 e3 : HyErr) (d : HyApiData) (tok ctok : String),
      o.bypass = false → o.cacheRes = none → isValidIdentifier query = true →
      o.tokenRes = .ok tok → o.pass1.httpRes = .error e1 →
      shouldSkipContainerFallback e1 = false →
      o.pass1.containerRes = .error e2 → e2.isAuthError = false →
      e2.code = HyCode.rateLimited → o.tokenContainer = .ok ctok →
      o.fallbackContainer = .error e3 →
      (e3.code = HyCode.rateLimited ∨ e3.statusCode = some 429) →
      o.vendor = .ok d →
      hytaleGetProfile o query =
        (.ok (hytaleParse o.parseSkin d o.now, "nodecraft_api"),
          [Attempt.http, Attempt.container, Attempt.container, Attempt.nodecraft ctok])) :=
  ⟨hytaleGetProfile_no_tcp,
    fun o query tok hb hc hv ht => hytaleGetProfile_head_http o query tok hb hc hv ht,
    fun o query e1 e2 e3 d tok ctok hb hc hv ht h1 hskip h2 h2a h2r hct hfc h3 hvd =>
      hytale_rate_limit_cascade o query e1 e2 e3 d tok ctok hb hc hv ht h1 hskip h2 h2a
        h2r hct hfc h3 hvd⟩

def c5E1 : HyErr := { code := .apiFailure }

def c5E2 : HyErr := { code := .rateLimited }

def c5E3 : HyErr := { code := .rateLimited }

def c5Data : HyApiData := { uuid := strLit "0ab", username := strLit "someuser" }

def c5Query : Str := strLit "someuser"

def c5Oracles : HyOracles :=
  { bypass := false
    cacheRes := none
    tokenRes := .ok "tok"
    pass1 := { httpRes := .error c5E1, containerRes := .error c5E2 }
    tokenContainer := .ok "ctok"
    fallbackContainer := .error c5E3
    vendor := .ok c5Data
    now := 1700000000000 }

/-- C5 counterexample: on a concrete full cascade the attempt trace is
`Fetch, container, container, vendor` — it starts with the Fetch client,
not with a raw-TLS transport, and no raw-TLS attempt appears anywhere. -/
theorem hytale_no_raw_tls_counterexample :
    (hytaleGetProfile c5Oracles c5Query).2 =
      [Attempt.http, Attempt.container, Attempt.container, Attempt.nodecraft "ctok"] ∧
    (hytaleGetProfile c5Oracles c5Query).2.head? ≠ some Attempt.tcp ∧
    Attempt.tcp ∉ (hytaleGetProfile c5Oracles c5Query).2 := by
  refine ⟨rfl, ?_, ?_⟩ <;> decide

end Hytale

namespace Steam

theorem steam_cached_at (o : SOracles) (query : Str) (final : JObj) (puts : List SPut)
    (h : steamGetProfile o query = (.ok (final, strLit "http"), puts)) :
    objGet final (strLit "cached_at") = .num o.now := by
  simp only [steamGetProfile] at h
  split at h
  · injection h with h1 h2
    injection h1 with h3
    injection h3 with h4 h5
    exact absurd h5 (by decide)
  · split at h
    · injection h with h1 h2
      exact Except.noConfusion h1
    · split at h
      · injection h with h1 h2
        exact Except.noConfusion h1
      · split at h
        · injection h with h1 h2
          exact Except.noConfusion h1
        · injection h with h1 h2
          exact Except.noConfusion h1
        · injection h with h1 h2
          injection h1 with h3
          injection h3 with h4 h5
          rw [← h4, steamBuild]
          exact Xbox.objGet_objSet_self _ _ _

end Steam

namespace Xbox

theorem xbox_cached_at (o : XOracles) (query : Str) (final : JObj) (puts : List XPut)
    (up : Bool) (h : xboxGetProfile o query = (.ok (final, strLit "http"), puts, up)) :
    objGet final (strLit "cached_at") = .num o.now := by
  simp only [xboxGetProfile] at h
  split at h
  · split at h
    · injection h with h1 h2
      exact Except.noConfusion h1
    · injection h with h1 h2
      injection h1 with h3
      injection h3 with h4 h5
      exact absurd h5 (by decide)
  · split at h
    · split at h
      · injection h with h1 h2
        exact Except.noConfusion h1
      · injection h with h1 h2
        exact Except.noConfusion h1
    · split at h
      · injection h with h1 h2
        exact Except.noConfusion h1
      · injection h with h1 h2
        injection h1 with h3
        injection h3 with h4 h5
        rw [← h4]
        exact objGet_objSet_self _ _ _

end Xbox

/-- C7 (amended): only the Minecraft and Hytale pipelines expose an
integer-seconds creation stamp, and they put it under `meta.cached_at`
(`Math.round(ms / 1000)`); the Steam and Xbox pipelines write a top-level
`cached_at` holding `Date.now()` — integer milliseconds, not seconds. -/
theorem cached_at_units :
    (∀ (pSkin : Str → Option Str) (d : Hytale.HyApiData) (now : Nat),
      (Hytale.hytaleParse pSkin d now).metaCachedAt = some (Minecraft.jsRoundDiv1000 now)) ∧
    (∀ (decodeTex : Str → Option Str) (profile : Minecraft.ProfRec),
      profile.cachedAt ≠ 0 →
      (Minecraft.mcNormalize decodeTex profile).metaCachedAt =
        some (Minecraft.jsRoundDiv1000 profile.cachedAt)) ∧
    (∀ (o : Steam.SOracles) (query : Str) (final : JObj) (puts : List Steam.SPut),
      Steam.steamGetProfile o query = (.ok (final, strLit "http"), puts) →
      objGet final (strLit "cached_at") = .num o.now) ∧
    (∀ (o : Xbox.XOracles) (query : Str) (final : JObj) (puts : List Xbox.XPut) (up : Bool),
      Xbox.xboxGetProfile o query = (.ok (final, strLit "http"), puts, up) →
      objGet final (strLit "cached_at") = .num o.now) :=
  ⟨fun _ _ _ => rfl,
    fun decodeTex profile hne => by simp [Minecraft.mcNormalize, hne],
    fun o query final puts h => Steam.steam_cached_at o query final puts h,
    fun o query final puts up h => Xbox.xbox_cached_at o query final puts up h⟩

def c7Upstream : Xbox.XUpstream :=
  { profileUsers :=
      [{ uid := .str (strLit "999")
         settings := [{ sid := strLit "Gamertag", value := .str (strLit "SomeGamer") }] }] }

def c7Oracles : Xbox.XOracles :=
  { cacheGet := .miss, upstream := .ok c7Upstream, now := 1700000000000 }

def c7Final : JObj :=
  [(strLit "id", .str (strLit "999")),
    (strLit "meta", .obj []),
    (strLit "username", .str (strLit "SomeGamer")),
    (strLit "avatar",
      .str (strLit "https://avatar-ssl.xboxlive.com/avatar/SomeGamer/avatarpic-l.png")),
    (strLit "cached_at", .num 1700000000000)]

/-- C7 counterexample: the Xbox pipeline stamps the top-level `cached_at`
with `Date.now()` — milliseconds, not seconds.  At
`Date.now() = 1700000000000` the stored value is `1700000000000`, while
the integer-seconds stamp the specification describes
(`Math.round(ms / 1000)`, what Minecraft and Hytale write under
`meta.cached_at`) would be `1700000000`. -/
theorem xbox_cached_at_ms_counterexample :
    (Xbox.xboxGetProfile c7Oracles (strLit "somegamer")).1 =
      .ok (c7Final, strLit "http") ∧
    objGet c7Final (strLit "cached_at") = JVal.num 1700000000000 ∧
    Minecraft.jsRoundDiv1000 1700000000000 = 1700000000 ∧
    JVal.num 1700000000000 ≠ JVal.num 1700000000 := by
  refine ⟨rfl, rfl, by decide, ?_⟩
  intro hcon
  injection hcon with hn
  exact absurd hn (by decide)

end PlayerDB
